import Mathlib

/-!
Shallow embedding of the HAFAS board/autocomplete parsing logic of
`HAFASProvider.py` (class `HAFASProvider`), together with theorems about it.

Python dictionaries with a fixed set of possible keys are modelled as
structures of `Option` fields (a `none` field is an absent key); Python
exceptions are modelled by the `Except PyErr` monad; XML elements (lxml
`etree`) are modelled by the `XmlNode` tree; Python `float` division is
modelled by exact rational division.
-/

namespace RMV

/-- A dynamically typed Python value as stored in the parsed records:
either an `int`, a `str`, or `None`. -/
inductive PyVal where
  | vInt (n : Int)
  | vStr (s : String)
  | vNone
deriving DecidableEq, Repr

/-- The Python exceptions the parsing code can raise. -/
inductive PyErr where
  | typeError
  | valueError
  | keyError (k : String)
  | attributeError
  | stationNotFound
deriving DecidableEq, Repr

instance {ε α : Type} [DecidableEq ε] [DecidableEq α] : DecidableEq (Except ε α) := fun x y =>
  match x, y with
  | Except.ok a, Except.ok b =>
    if h : a = b then isTrue (by rw [h]) else isFalse (by intro hc; injection hc; contradiction)
  | Except.error e, Except.error f =>
    if h : e = f then isTrue (by rw [h]) else isFalse (by intro hc; injection hc; contradiction)
  | Except.ok _, Except.error _ => isFalse (by intro hc; cases hc)
  | Except.error _, Except.ok _ => isFalse (by intro hc; cases hc)

/-- `element.text` as a Python value (`None` or a string). -/
def pyOfText : Option String → PyVal
  | none => PyVal.vNone
  | some s => PyVal.vStr s

/-- Numeric value of a digit string. -/
def natOfDigits (l : List Char) : Nat :=
  l.foldl (fun a c => a * 10 + (c.toNat - 48)) 0

/-- Python `int(s)` on a string: optional sign followed by digits. -/
def parseIntStr (s : String) : Option Int :=
  match s.data with
  | [] => none
  | c :: rest =>
    if c = '-' then
      if rest ≠ [] ∧ rest.all Char.isDigit then some (-(natOfDigits rest : Int)) else none
    else if c = '+' then
      if rest ≠ [] ∧ rest.all Char.isDigit then some (natOfDigits rest : Int) else none
    else if (c :: rest).all Char.isDigit then some (natOfDigits (c :: rest) : Int) else none

/-- Python `int(x)` on a value that is either a string or `None`:
`int(None)` raises `TypeError`, a non-numeric string raises `ValueError`. -/
def pyInt : Option String → Except PyErr Int
  | none => Except.error PyErr.typeError
  | some s =>
    match parseIntStr s with
    | some n => Except.ok n
    | none => Except.error PyErr.valueError

/-- Python `str.lower()` (ASCII letters). -/
def lowerChar (c : Char) : Char :=
  if 'A' ≤ c ∧ c ≤ 'Z' then Char.ofNat (c.toNat + 32) else c

/-- Python `str.lower()`. -/
def pyLower (s : String) : String := String.mk (s.data.map lowerChar)

/-- Python `str.isdigit()`: nonempty and all digits. -/
def pyIsDigit (s : String) : Bool := !s.data.isEmpty && s.data.all Char.isDigit

/-- Python dict access `d[k]` on a possibly absent key. -/
def getKey {α : Type} (o : Option α) (k : String) : Except PyErr α :=
  match o with
  | none => Except.error (PyErr.keyError k)
  | some v => Except.ok v

/-- Python `d[k] = v` on an insertion-ordered dict. -/
def dictInsert {κ β : Type} [DecidableEq κ] (d : List (κ × β)) (k : κ) (v : β) :
    List (κ × β) :=
  if d.any (fun p => decide (p.1 = k)) then
    d.map (fun p => if p.1 = k then (k, v) else p)
  else d ++ [(k, v)]

/-- The keys of a modelled dict. -/
def dictKeys {κ β : Type} (d : List (κ × β)) : List κ := d.map Prod.fst

/-- A Python `for` loop over a list, threading a state, where the body may
raise. -/
def foldlE {σ α : Type} (f : σ → α → Except PyErr σ) : σ → List α → Except PyErr σ
  | s, [] => Except.ok s
  | s, a :: l =>
    match f s a with
    | Except.ok s' => foldlE f s' l
    | Except.error e => Except.error e

/-- Elementwise fallible map (used only to state properties). -/
def mapE {α β : Type} (f : α → Except PyErr β) : List α → Except PyErr (List β)
  | [] => Except.ok []
  | a :: l =>
    match f a with
    | Except.error e => Except.error e
    | Except.ok b =>
      match mapE f l with
      | Except.error e => Except.error e
      | Except.ok bs => Except.ok (b :: bs)

/-- An lxml `etree` element: tag, attributes, text, children. -/
structure XmlNode where
  tag : String
  attrs : List (String × String)
  text : Option String
  children : List XmlNode
deriving Repr

/-- `element.get(k)`: attribute lookup, `None` when absent. -/
def xGet (n : XmlNode) (k : String) : Option String :=
  (n.attrs.find? (fun p => p.1 == k)).map (fun p => p.2)

/-- `element.find(tag)` for a plain child tag: first matching child. -/
def xFind (n : XmlNode) (t : String) : Option XmlNode :=
  n.children.find? (fun c => c.tag == t)

/-- `element.findall(path)` for a `/`-separated path of plain tags. -/
def xFindAll : XmlNode → List String → List XmlNode
  | n, [] => [n]
  | n, t :: rest => (n.children.filter (fun c => c.tag == t)).flatMap (fun c => xFindAll c rest)

/-- `element.find(path)` for a `/`-separated path: first match in document
order. -/
def xFindP (n : XmlNode) (path : List String) : Option XmlNode :=
  (xFindAll n path).head?

/-- The `location` dict built from a `Location` element:
`{lat, lon, x, y, type}`. -/
structure LocationDict where
  lat : ℚ
  lon : ℚ
  x : Int
  y : Int
  type : Option String
deriving DecidableEq, Repr

/-- A station/stop dict as built by `__handle_station` / `__handle_basic_stop`.
Every field models one possible dict key; `none` means the key is absent. -/
structure StDict where
  external_id : Option Int := none
  pooluic : Option Int := none
  name : Option (Option String) := none
  location : Option LocationDict := none
  time : Option PyVal := none
  delay : Option Int := none
  platform : Option PyVal := none
deriving DecidableEq, Repr

/-- One iteration of the `__handle_station` loop body. -/
def stationStep (info : StDict) (element : XmlNode) : Except PyErr StDict :=
  if element.tag == "ExternalId" then do
    let e ← pyInt element.text
    let p ← pyInt (xGet element "pooluic")
    pure { info with external_id := some e, pooluic := some p }
  else if element.tag == "HafasName" then
    match xFind element "Text" with
    | none => Except.error PyErr.attributeError
    | some text_elem => Except.ok { info with name := some text_elem.text }
  else Except.ok info

/-- `HAFASProvider.__handle_station`: walk the children of a station element.
The argument is the iterable of child elements (both call sites iterate an
element or a materialised list of its children). -/
def handle_station (children : List XmlNode) : Except PyErr StDict :=
  foldlE stationStep {} children

/-- One iteration of the `__handle_departure_or_arrival` loop body.  The state
is the `(timestamp, delay, platform)` triple. -/
def depArrStep (st : PyVal × Int × PyVal) (time_attr : XmlNode) :
    Except PyErr (PyVal × Int × PyVal) :=
  if time_attr.tag == "Time" then
    Except.ok (pyOfText time_attr.text, st.2.1, st.2.2)
  else if time_attr.tag == "Delay" then do
    let d ← pyInt time_attr.text
    pure (st.1, 60 * d, st.2.2)
  else if time_attr.tag == "Platform" then
    Except.ok (st.1, st.2.1, pyOfText time_attr.text)
  else Except.ok st

/-- `HAFASProvider.__handle_departure_or_arrival` over the children of a
`Dep`/`Arr` element.  `start_date`/`start_time` are accepted (as in the
source) but the body never reads them: the timestamp-normalisation code in
the source is commented out and `timestamp` is simply the `Time` text. -/
def handle_departure_or_arrival (children : List XmlNode)
    (start_date start_time : Option String) : Except PyErr (PyVal × Int × PyVal) :=
  foldlE depArrStep (PyVal.vInt 0, 0, PyVal.vInt (-1)) children

/-- One iteration of the `__handle_basic_stop` loop body over one child of a
`BasicStop` element. -/
def basicStopStep (start_date start_time : Option String) (stop : StDict)
    (attr : XmlNode) : Except PyErr StDict :=
  if attr.tag == "Location" then do
    let x ← pyInt (xGet attr "x")
    let y ← pyInt (xGet attr "y")
    let lon : ℚ := (x : ℚ) / 1000000
    let lat : ℚ := (y : ℚ) / 1000000
    let ty := xGet attr "type"
    foldlE (fun _cur st => do
      let info ← handle_station st.children
      pure { info with location := some ⟨lat, lon, x, y, ty⟩ }) stop attr.children
  else if attr.tag == "Dep" || attr.tag == "Arr" then do
    let tdp ← handle_departure_or_arrival attr.children start_date start_time
    pure { stop with time := some tdp.1, delay := some tdp.2.1, platform := some tdp.2.2 }
  else Except.ok stop

/-- `HAFASProvider.__handle_basic_stop`: parse one `BasicStop` element,
returning its `index` attribute and the stop dict. -/
def handle_basic_stop (leaf : XmlNode) (start_date start_time : Option String) :
    Except PyErr (Int × StDict) := do
  let index ← pyInt (xGet leaf "index")
  let stop ← foldlE (basicStopStep start_date start_time) {} leaf.children
  pure (index, stop)

/-- A connection dict as built per `Journey` in `get_stboard`.  The dynamic
attribute-type keys are modelled by the `attrs` mapping; each value is the
inner dict mapping `"code"`/variant types to texts. -/
structure ConnDict where
  train_id : Option String
  attrs : List (String × List (String × Option String)) := []
  time : Option PyVal := none
  delay : Option Int := none
  infotext : Option (List (Option String × Option String)) := none
  stops : List (Int × StDict) := []
deriving DecidableEq, Repr

/-- Processing of one `AttributeCode`/`AttributeVariant` child of an
`Attribute` element, updating the attribute's inner dict. -/
def attrTypeStep (inner : List (String × Option String)) (attr_type : XmlNode) :
    Except PyErr (List (String × Option String)) :=
  if attr_type.tag == "AttributeCode" then
    Except.ok (dictInsert inner "code" attr_type.text)
  else if attr_type.tag == "AttributeVariant" then do
    let vtRaw ← match xGet attr_type "type" with
      | none => Except.error PyErr.attributeError
      | some s => pure s
    let vt := pyLower vtRaw
    pure (attr_type.children.foldl (fun inn text_field => dictInsert inn vt text_field.text) inner)
  else Except.ok inner

/-- Processing of one `Attribute` element of a `JourneyAttribute`:
`conn[type] = {}` followed by the `AttributeCode`/`AttributeVariant` walk. -/
def handleAttr (conn_attrs : List (String × List (String × Option String)))
    (attr : XmlNode) : Except PyErr (List (String × List (String × Option String))) := do
  let _priority := xGet attr "priority"
  let tyRaw ← match xGet attr "type" with
    | none => Except.error PyErr.attributeError
    | some s => pure s
  let ty := pyLower tyRaw
  let inner ← foldlE attrTypeStep ([] : List (String × Option String)) attr.children
  pure (dictInsert conn_attrs ty inner)

/-- The conditional write-back of a main stop's location onto the origin
station dict (with Python's left-to-right, short-circuit key accesses). -/
def backfillStep (o : StDict) (stop : StDict) : Except PyErr StDict := do
  let se ← getKey stop.external_id "external_id"
  let oe ← getKey o.external_id "external_id"
  let m ← if se == oe then do
      let sp ← getKey stop.pooluic "pooluic"
      let op ← getKey o.pooluic "pooluic"
      pure (sp == op)
    else pure false
  if m then do
    let loc ← getKey stop.location "location"
    pure { o with location := some loc }
  else Except.ok o

/-- The body of the `MainStop` inner loop in `get_stboard`: parse the basic
stop, copy time/delay up onto the connection, back-fill the origin station's
location on identity match, and store the stop by index. -/
def mainStopStep (start_date start_time : Option String)
    (p : StDict × ConnDict) (stopNode : XmlNode) : Except PyErr (StDict × ConnDict) := do
  let r ← handle_basic_stop stopNode start_date start_time
  let stop := r.2
  let t ← getKey stop.time "time"
  let d ← getKey stop.delay "delay"
  let c1 := { p.2 with time := some t, delay := some d }
  let o1 ← backfillStep p.1 stop
  pure (o1, { c1 with stops := dictInsert c1.stops r.1 stop })

/-- The body of the `PassList` inner loop in `get_stboard`. -/
def passListStep (start_date start_time : Option String)
    (stops : List (Int × StDict)) (stopNode : XmlNode) :
    Except PyErr (List (Int × StDict)) := do
  let r ← handle_basic_stop stopNode start_date start_time
  pure (dictInsert stops r.1 r.2)

/-- The body of the `JourneyAttributeList` inner loop in `get_stboard`:
read the (unused) validity attributes and walk the group's attributes. -/
def journeyAttrStep (a : List (String × List (String × Option String)))
    (journey_attr : XmlNode) :
    Except PyErr (List (String × List (String × Option String))) :=
  let _valid_from := xGet journey_attr "from"
  let _valid_to := xGet journey_attr "to"
  foldlE handleAttr a journey_attr.children

/-- The dispatch over one child of a `Journey` element in `get_stboard`.
The state is the (mutable) origin station dict together with the connection
dict under construction. -/
def journeyStep (start_date start_time : Option String)
    (st : StDict × ConnDict) (elem : XmlNode) : Except PyErr (StDict × ConnDict) :=
  if elem.tag == "JourneyAttributeList" then do
    let attrs ← foldlE journeyAttrStep st.2.attrs elem.children
    pure (st.1, { st.2 with attrs := attrs })
  else if elem.tag == "MainStop" then
    foldlE (mainStopStep start_date start_time) st elem.children
  else if elem.tag == "Product" then
    Except.ok st
  else if elem.tag == "PassList" then do
    let stops ← foldlE (passListStep start_date start_time) st.2.stops elem.children
    pure (st.1, { st.2 with stops := stops })
  else if elem.tag == "InfoTextList" then
    let infos := elem.children.map (fun infotext => (xGet infotext "text", xGet infotext "textL"))
    Except.ok (st.1, { st.2 with infotext := some infos })
  else Except.ok st

/-- Processing of one `Journey` element in `get_stboard`: build the fresh
connection dict, walk the journey's children, and append the connection. -/
def boardStep (start_date start_time : Option String)
    (st : StDict × List ConnDict) (journey : XmlNode) :
    Except PyErr (StDict × List ConnDict) := do
  let conn0 : ConnDict := { train_id := xGet journey "trainId" }
  let p ← foldlE (journeyStep start_date start_time) (st.1, conn0) journey.children
  pure (p.1, st.2 ++ [p.2])

/-- The XML-handling part of `HAFASProvider.get_stboard` applied to the parsed
response document: extract the start date/time, parse the origin station
(mapping an internal `TypeError` to `StationNotFoundException`), then walk
the journeys in document order. -/
def get_stboard (root : XmlNode) : Except PyErr (StDict × List ConnDict) := do
  let startT ← match xFindP root ["SBRes", "SBReq", "StartT"] with
    | none => Except.error PyErr.attributeError
    | some e => pure e
  let start_date := xGet startT "date"
  let start_time := xGet startT "time"
  let originChildren ← match xFindP root ["SBRes", "SBReq", "Start", "Station"] with
    | none => Except.error PyErr.typeError
    | some e => pure e.children
  let origin_station_info ← match handle_station originChildren with
    | Except.error PyErr.typeError => Except.error PyErr.stationNotFound
    | Except.error e => Except.error e
    | Except.ok i => pure i
  let res ← foldlE (boardStep start_date start_time) (origin_station_info, [])
    (xFindAll root ["SBRes", "JourneyList", "Journey"])
  pure res

/-! ## Autocomplete endpoint -/

/-- Python `str.find(c)`: index of the first occurrence, as an auxiliary
`Option Nat`. -/
def pyFindAux (c : Char) : List Char → Option Nat
  | [] => none
  | a :: l => if a = c then some 0 else (pyFindAux c l).map (· + 1)

/-- Python `str.find(c)`: index of the first occurrence or `-1`. -/
def pyFind (s : List Char) (c : Char) : Int :=
  match pyFindAux c s with
  | some i => (i : Int)
  | none => -1

/-- Python `str.rfind(c)`: index of the last occurrence, as an auxiliary
`Option Nat`. -/
def pyRFindAux (c : Char) : List Char → Option Nat
  | [] => none
  | a :: l =>
    match pyRFindAux c l with
    | some i => some (i + 1)
    | none => if a = c then some 0 else none

/-- Python `str.rfind(c)`: index of the last occurrence or `-1`. -/
def pyRFind (s : List Char) (c : Char) : Int :=
  match pyRFindAux c s with
  | some i => (i : Int)
  | none => -1

/-- Normalisation of a (possibly negative) Python slice index. -/
def pyIndexClamp (n : Nat) (k : Int) : Nat :=
  if k < 0 then ((n : Int) + k).toNat else min k.toNat n

/-- Python slice `s[i:j]`. -/
def pySlice (s : List Char) (i j : Int) : List Char :=
  (s.take (pyIndexClamp s.length j)).drop (pyIndexClamp s.length i)

/-- The padding-stripping step of `get_autocomplete_locations`:
`data[data.find(chr(123)) : data.rfind(chr(125)) + 1]`. -/
def stripPadding (s : List Char) : List Char :=
  pySlice s (pyFind s '{') (pyRFind s '}' + 1)

/-- One entry of the decoded `suggestions` JSON array.  A `none` field models
an absent key. -/
structure SuggEntry where
  value : Option String := none
  extId : Option String := none
  ycoord : Option String := none
  xcoord : Option String := none
  weight : Option String := none
  prodClass : Option String := none
  type : Option String := none
deriving DecidableEq, Repr

/-- One record returned by `get_autocomplete_locations`. -/
structure AutoRecord where
  name : String
  external_id : String
  lat : Option ℚ
  lon : Option ℚ
  weight : Int
  products : String
  type : String
deriving DecidableEq, Repr

/-- The record-building dict literal of the `get_autocomplete_locations`
loop, with Python's left-to-right evaluation of the dict values. -/
def parseSuggestion (stop : SuggEntry) : Except PyErr AutoRecord := do
  let name ← getKey stop.value "value"
  let ext ← getKey stop.extId "extId"
  let yc ← getKey stop.ycoord "ycoord"
  let lat ← if pyIsDigit yc then do
      let n ← pyInt (some yc)
      pure (some ((n : ℚ) / 1000))
    else pure none
  let xc ← getKey stop.xcoord "xcoord"
  let lon ← if pyIsDigit xc then do
      let n ← pyInt (some xc)
      pure (some ((n : ℚ) / 1000))
    else pure none
  let wS ← getKey stop.weight "weight"
  let w ← pyInt (some wS)
  let pc ← getKey stop.prodClass "prodClass"
  let ty ← getKey stop.type "type"
  pure ⟨name, ext, lat, lon, w, pc, ty⟩

/-- The suggestion loop of `get_autocomplete_locations`: build each record,
skipping (only) entries that raise `KeyError`. -/
def suggestionStep (acc : List AutoRecord) (stop : SuggEntry) :
    Except PyErr (List AutoRecord) :=
  match parseSuggestion stop with
  | Except.ok r => Except.ok (acc ++ [r])
  | Except.error (PyErr.keyError _) => Except.ok acc
  | Except.error e => Except.error e

/-- Stable insertion for descending-weight ordering: an element is placed
after all already-placed elements of greater or equal weight. -/
def insertByWeight (r : AutoRecord) : List AutoRecord → List AutoRecord
  | [] => [r]
  | x :: xs => if x.weight < r.weight then r :: x :: xs else x :: insertByWeight r xs

/-- Python `sorted(stops, key=weight, reverse=True)` (a stable sort by
descending weight). -/
def sortedByWeightDesc (l : List AutoRecord) : List AutoRecord :=
  l.foldl (fun acc r => insertByWeight r acc) []

/-- The parsing part of `HAFASProvider.get_autocomplete_locations` applied to
the raw response text: strip the non-JSON padding, decode the JSON body
(`decode` stands for `json.loads` followed by the `suggestions` key access),
walk the suggestions, and sort by descending weight. -/
def get_autocomplete_locations (decode : List Char → Except PyErr (List SuggEntry))
    (data : List Char) : Except PyErr (List AutoRecord) := do
  let suggestions ← decode (stripPadding data)
  let stops ← foldlE suggestionStep [] suggestions
  pure (sortedByWeightDesc stops)

/-! ## Observers used to state properties -/

/-- The last child with a given tag (document order). -/
def lastTagged (t : String) (children : List XmlNode) : Option XmlNode :=
  (children.filter (fun c => c.tag == t)).getLast?

/-- Whether a dynamic value is an integer. -/
def PyVal.isInt : PyVal → Bool
  | PyVal.vInt _ => true
  | _ => false

/-- The `time` values of the connections of a board result. -/
def connTimes (r : Except PyErr (StDict × List ConnDict)) :
    Except PyErr (List (Option PyVal)) :=
  r.map (fun p => p.2.map ConnDict.time)

/-- The journey elements a board document yields. -/
def boardJourneys (root : XmlNode) : List XmlNode :=
  xFindAll root ["SBRes", "JourneyList", "Journey"]

/-- The query start date of a board document. -/
def boardStartDate (root : XmlNode) : Option String :=
  (xFindP root ["SBRes", "SBReq", "StartT"]).bind (fun e => xGet e "date")

/-- The query start time of a board document. -/
def boardStartTime (root : XmlNode) : Option String :=
  (xFindP root ["SBRes", "SBReq", "StartT"]).bind (fun e => xGet e "time")

/-- The origin station record exactly as the station-parsing prefix of
`get_stboard` produces it (before any journey is walked). -/
def parsedOriginStation (root : XmlNode) : Except PyErr StDict :=
  match xFindP root ["SBRes", "SBReq", "Start", "Station"] with
  | none => Except.error PyErr.typeError
  | some e =>
    match handle_station e.children with
    | Except.error PyErr.typeError => Except.error PyErr.stationNotFound
    | Except.error e' => Except.error e'
    | Except.ok i => Except.ok i

/-- The number of main-stop entries plus pass-list entries among journey
children. -/
def mainPassCountList : List XmlNode → Nat
  | [] => 0
  | e :: rest =>
    (if e.tag == "MainStop" || e.tag == "PassList" then e.children.length else 0) +
      mainPassCountList rest

/-- The number of main-stop entries plus pass-list entries of a journey
element. -/
def mainPassEntryCount (j : XmlNode) : Nat := mainPassCountList j.children

/-- The `(is_main, index, stop)` entries a journey's children contribute to
the stop mapping, in processing order. -/
def journeyStopEntries (sd st : Option String) :
    List XmlNode → Except PyErr (List (Bool × Int × StDict))
  | [] => Except.ok []
  | elem :: rest =>
    if elem.tag == "MainStop" then
      match mapE (fun n => (handle_basic_stop n sd st).map (fun r => (true, r.1, r.2)))
          elem.children with
      | Except.error e => Except.error e
      | Except.ok es => (journeyStopEntries sd st rest).map (fun rest' => es ++ rest')
    else if elem.tag == "PassList" then
      match mapE (fun n => (handle_basic_stop n sd st).map (fun r => (false, r.1, r.2)))
          elem.children with
      | Except.error e => Except.error e
      | Except.ok es => (journeyStopEntries sd st rest).map (fun rest' => es ++ rest')
    else journeyStopEntries sd st rest

/-- The stop entries of all journeys of a board, in processing order. -/
def boardEntries (sd st : Option String) : List XmlNode → Except PyErr (List (Bool × Int × StDict))
  | [] => Except.ok []
  | j :: rest =>
    match journeyStopEntries sd st j.children with
    | Except.error e => Except.error e
    | Except.ok es => (boardEntries sd st rest).map (fun rest' => es ++ rest')

/-- Replay of the origin back-fill over a stop-entry sequence (only
main-stop entries back-fill). -/
def backfillFoldStep (oo : StDict) (e : Bool × Int × StDict) : Except PyErr StDict :=
  if e.1 then backfillStep oo e.2.2 else Except.ok oo

/-- Whether a stop's station identity equals the origin's. -/
def matchesOrigin (o s : StDict) : Bool :=
  (s.external_id == o.external_id) && (s.pooluic == o.pooluic)

/-- The `location` value of the last main-stop entry matching the origin's
identity, when one exists. -/
def lastMatchLoc (o : StDict) (es : List (Bool × Int × StDict)) :
    Option (Option LocationDict) :=
  ((es.filter (fun e => e.1 && matchesOrigin o e.2.2)).getLast?).map (fun e => e.2.2.location)

/-- Replay of the index-keyed dict inserts of a stop-entry sequence. -/
def entriesInsert (d : List (Int × StDict)) (es : List (Bool × Int × StDict)) :
    List (Int × StDict) :=
  es.foldl (fun acc e => dictInsert acc e.2.1 e.2.2) d

/-- The text of the last text child of the last variant of an attribute. -/
def lastVariantText (variants : List XmlNode) : Option (Option String) :=
  variants.getLast?.bind (fun v => (v.children.getLast?).map (fun tf => tf.text))

/-- For every stop of every connection of a board result: its index and
whether its `location` key is present. -/
def passStopLocations (r : Except PyErr (StDict × List ConnDict)) :
    Except PyErr (List (List (Int × Bool))) :=
  r.map (fun p => p.2.map (fun c => c.stops.map (fun s => (s.1, s.2.location.isSome))))

/-! ## Concrete documents used by counterexamples and witnesses -/

/-- Children of a well-formed `Station` element. -/
def exStationChildren : List XmlNode :=
  [⟨"ExternalId", [("pooluic", "80")], some "3004734", []⟩,
   ⟨"HafasName", [], none, [⟨"Text", [], some "Hbf", []⟩]⟩]

/-- A well-formed `Station` element. -/
def exStationElem : XmlNode := ⟨"Station", [], none, exStationChildren⟩

/-- A `Dep` element with time text `"00:30"`, two minutes delay, platform 4. -/
def exDep : XmlNode :=
  ⟨"Dep", [], none,
   [⟨"Time", [], some "00:30", []⟩, ⟨"Delay", [], some "2", []⟩,
    ⟨"Platform", [], some "4", []⟩]⟩

/-- A `Location` element with a given `x` carrying the example station. -/
def exLocAt (x : String) : XmlNode :=
  ⟨"Location", [("x", x), ("y", "50110000"), ("type", "WGS84")], none, [exStationElem]⟩

/-- A well-formed `BasicStop` (index 0) with location and departure data. -/
def exStop0 : XmlNode := ⟨"BasicStop", [("index", "0")], none, [exLocAt "8683000", exDep]⟩

/-- A `BasicStop` (index 3) with departure data but no `Location` child. -/
def exStopNoLoc : XmlNode := ⟨"BasicStop", [("index", "3")], none, [exDep]⟩

/-- A board document with the given origin-station children and journeys,
with start date `20160101` and start time `23:50`. -/
def mkBoardDoc (stationChildren : List XmlNode) (journeys : List XmlNode) : XmlNode :=
  ⟨"ResC", [], none,
   [⟨"SBRes", [], none,
     [⟨"SBReq", [], none,
       [⟨"StartT", [("date", "20160101"), ("time", "23:50")], none, []⟩,
        ⟨"Start", [], none, [⟨"Station", [], none, stationChildren⟩]⟩]⟩,
      ⟨"JourneyList", [], none, journeys⟩]⟩]⟩

/-- A board document whose only journey's main stop departs at `"00:30"`
(an hour-of-day strictly below the query's start hour 23). -/
def c1doc : XmlNode :=
  mkBoardDoc exStationChildren [⟨"Journey", [("trainId", "T1")], none,
    [⟨"MainStop", [], none, [exStop0]⟩]⟩]

/-- A board document whose `Start` element has no `Station` child. -/
def c2absentDoc : XmlNode :=
  ⟨"ResC", [], none,
   [⟨"SBRes", [], none,
     [⟨"SBReq", [], none,
       [⟨"StartT", [("date", "20160101"), ("time", "23:50")], none, []⟩,
        ⟨"Start", [], none, []⟩]⟩,
      ⟨"JourneyList", [], none, []⟩]⟩]⟩

/-- A board document whose origin `Station` element has no children. -/
def c2emptyDoc : XmlNode := mkBoardDoc [] []

/-- A board document whose only journey carries the location-less stop in its
pass list. -/
def c3doc : XmlNode :=
  mkBoardDoc exStationChildren [⟨"Journey", [("trainId", "T1")], none,
    [⟨"MainStop", [], none, [exStop0]⟩, ⟨"PassList", [], none, [exStopNoLoc]⟩]⟩]

/-- A board document whose only journey carries the location-less stop as its
main stop. -/
def c3badDoc : XmlNode :=
  mkBoardDoc exStationChildren [⟨"Journey", [("trainId", "T1")], none,
    [⟨"MainStop", [], none, [exStopNoLoc]⟩]⟩]

/-- A board document whose only journey has a main stop and a pass-list stop
sharing index 0. -/
def c5doc : XmlNode :=
  mkBoardDoc exStationChildren [⟨"Journey", [("trainId", "T1")], none,
    [⟨"MainStop", [], none, [exStop0]⟩,
     ⟨"PassList", [], none, [⟨"BasicStop", [("index", "0")], none, [exDep]⟩]⟩]⟩]

/-- A board document with two journeys whose main stops both match the origin
station's identity but carry different locations. -/
def c9doc : XmlNode :=
  mkBoardDoc exStationChildren
    [⟨"Journey", [("trainId", "T1")], none,
      [⟨"MainStop", [], none,
        [⟨"BasicStop", [("index", "0")], none, [exLocAt "1000000", exDep]⟩]⟩]⟩,
     ⟨"Journey", [("trainId", "T2")], none,
      [⟨"MainStop", [], none,
        [⟨"BasicStop", [("index", "0")], none, [exLocAt "2000000", exDep]⟩]⟩]⟩]

/-- A `BasicStop` whose `Dep` child precedes a childless `Location` child. -/
def c10node : XmlNode :=
  ⟨"BasicStop", [("index", "5")], none,
   [exDep, ⟨"Location", [("x", "1000000"), ("y", "2000000"), ("type", "WGS84")], none, []⟩]⟩

/-- A journey attribute with two variants, both typed `normal` (up to case),
as in the spec's two-variant test. -/
def c7attr : XmlNode :=
  ⟨"Attribute", [("type", "NAME"), ("priority", "1")], none,
   [⟨"AttributeVariant", [("type", "NORMAL")], none, [⟨"Text", [], some "S 8", []⟩]⟩,
    ⟨"AttributeVariant", [("type", "Normal")], none, [⟨"Text", [], some "S8", []⟩]⟩]⟩

/-- A board document whose only journey carries two pass-list stops with
distinct indices 7 and 9 (and no main stop). -/
def c5wdoc : XmlNode :=
  mkBoardDoc exStationChildren [⟨"Journey", [("trainId", "T1")], none,
    [⟨"PassList", [], none,
      [⟨"BasicStop", [("index", "7")], none, [exDep]⟩,
       ⟨"BasicStop", [("index", "9")], none, [exDep]⟩]⟩]⟩]

/-- The stop record parsed from a `BasicStop` holding only `exDep`. -/
def c5wstop : StDict :=
  { time := some (PyVal.vStr "00:30"), delay := some 120,
    platform := some (PyVal.vStr "4") }

/-- The origin station record parsed from `exStationChildren`. -/
def c5wost : StDict :=
  { external_id := some 3004734, pooluic := some 80, name := some (some "Hbf") }

/-- The connection `get_stboard` builds for the journey of `c5wdoc`. -/
def c5wconn : ConnDict := { train_id := some "T1", stops := [(7, c5wstop), (9, c5wstop)] }

/-- The location dict decoded from `exLocAt "8683000"`, written in the shape
the coordinate arithmetic produces. -/
def exLocDictFull : LocationDict :=
  ⟨((50110000 : Int) : ℚ) / 1000000, ((8683000 : Int) : ℚ) / 1000000, 8683000,
    50110000, some "WGS84"⟩

/-- The origin station record of `c1doc` after the location back-fill. -/
def exOriginFilled : StDict :=
  { external_id := some 3004734, pooluic := some 80, name := some (some "Hbf"),
    location := some exLocDictFull }

/-- The main-stop record of `c1doc`'s journey. -/
def exMainStopDict : StDict :=
  { external_id := some 3004734, pooluic := some 80, name := some (some "Hbf"),
    location := some exLocDictFull, time := some (PyVal.vStr "00:30"),
    delay := some 120, platform := some (PyVal.vStr "4") }

/-- The connection `get_stboard` builds for the journey of `c1doc`. -/
def exConn1 : ConnDict :=
  { train_id := some "T1", time := some (PyVal.vStr "00:30"), delay := some 120,
    stops := [(0, exMainStopDict)] }

/-- A concrete stand-in for `json.loads` plus the `suggestions` access, used
to witness the padding property. -/
def c6decode : List Char → Except PyErr (List SuggEntry) := fun l =>
  Except.ok [{ value := some (String.mk l) }]

/-- A suggestion entry with a non-digit `xcoord` and an all-digit `ycoord`. -/
def c8entry : SuggEntry :=
  { value := some "Frankfurt", extId := some "003000010", ycoord := some "50110",
    xcoord := some "8.683", weight := some "9", prodClass := some "31", type := some "1" }

/-! ## Helper lemmas -/

@[simp] theorem error_bind {α β : Type} (e : PyErr) (k : α → Except PyErr β) :
    (Except.error e : Except PyErr α) >>= k = Except.error e := rfl

@[simp] theorem ok_bind {α β : Type} (a : α) (k : α → Except PyErr β) :
    (Except.ok a : Except PyErr α) >>= k = k a := rfl

@[simp] theorem map_error {α β : Type} (e : PyErr) (f : α → β) :
    f <$> (Except.error e : Except PyErr α) = Except.error e := rfl

@[simp] theorem map_ok {α β : Type} (a : α) (f : α → β) :
    f <$> (Except.ok a : Except PyErr α) = Except.ok (f a) := rfl

@[simp] theorem exmap_error {α β : Type} (e : PyErr) (f : α → β) :
    Except.map f (Except.error e : Except PyErr α) = Except.error e := rfl

@[simp] theorem exmap_ok {α β : Type} (a : α) (f : α → β) :
    Except.map f (Except.ok a : Except PyErr α) = Except.ok (f a) := rfl

theorem pure_eq_ok {α : Type} (a : α) :
    (pure a : Except PyErr α) = Except.ok a := rfl

@[simp] theorem foldlE_nil {σ α : Type} (f : σ → α → Except PyErr σ) (s : σ) :
    foldlE f s [] = Except.ok s := rfl

theorem foldlE_append {σ α : Type} (f : σ → α → Except PyErr σ) (s : σ)
    (l₁ l₂ : List α) :
    foldlE f s (l₁ ++ l₂) = (foldlE f s l₁) >>= (fun s' => foldlE f s' l₂) := by
  induction l₁ generalizing s with
  | nil => simp
  | cons a l ih =>
    simp only [List.cons_append, foldlE]
    cases f s a with
    | error e => rfl
    | ok s' => exact ih s'

theorem getLast?_cons_eq {α : Type} (a : α) :
    ∀ l : List α, (a :: l).getLast? = some (l.getLast?.getD a)
  | [] => rfl
  | b :: m => by
    rw [List.getLast?_cons_cons, getLast?_cons_eq b m]
    simp

/-- The inductive core behind the delay claims: the delay component of the
`__handle_departure_or_arrival` state is the initial one when no `Delay`
child occurs, and 60 times the parsed text of the last `Delay` child
otherwise. -/
theorem depArr_fold_delay :
    ∀ (children : List XmlNode) (s0 res : PyVal × Int × PyVal),
    foldlE depArrStep s0 children = Except.ok res →
    (lastTagged "Delay" children = none ∧ res.2.1 = s0.2.1) ∨
    (∃ c k, lastTagged "Delay" children = some c ∧ pyInt c.text = Except.ok k ∧
      res.2.1 = 60 * k)
  | [], s0, res, h => by
    left
    refine ⟨rfl, ?_⟩
    simp only [foldlE, Except.ok.injEq] at h
    rw [h]
  | a :: l, s0, res, h => by
    simp only [foldlE] at h
    by_cases hT : (a.tag == "Time") = true
    · rw [show depArrStep s0 a = Except.ok (pyOfText a.text, s0.2.1, s0.2.2) by
        simp [depArrStep, hT]] at h
      have hD : (a.tag == "Delay") = false := by
        simp only [beq_iff_eq] at hT ⊢; simp [hT]
      have := depArr_fold_delay l _ res h
      rwa [show lastTagged "Delay" (a :: l) = lastTagged "Delay" l by
        simp [lastTagged, List.filter_cons, hD]]
    · by_cases hD : (a.tag == "Delay") = true
      · have hstep : depArrStep s0 a =
            (fun d => ((s0.1 : PyVal), 60 * d, s0.2.2)) <$> pyInt a.text := by
          simp [depArrStep, hT, hD]
        rw [hstep] at h
        cases hk : pyInt a.text with
        | error e => rw [hk] at h; simp at h
        | ok k =>
          rw [hk] at h
          simp only [map_ok] at h
          have hlt : lastTagged "Delay" (a :: l) =
              some (((l.filter (fun c => c.tag == "Delay")).getLast?).getD a) := by
            simp only [lastTagged, List.filter_cons, hD, if_true]
            exact getLast?_cons_eq a _
          rcases depArr_fold_delay l _ res h with ⟨hnone, hres⟩ | ⟨c, k', hc, hkc, hres⟩
          · right
            refine ⟨a, k, ?_, hk, by simpa using hres⟩
            simp only [lastTagged] at hnone
            rw [hlt, hnone]
            rfl
          · right
            refine ⟨c, k', ?_, hkc, hres⟩
            simp only [lastTagged] at hc
            rw [hlt, hc]
            rfl
      · by_cases hP : (a.tag == "Platform") = true
        · rw [show depArrStep s0 a = Except.ok (s0.1, s0.2.1, pyOfText a.text) by
            simp [depArrStep, hT, hD, hP]] at h
          have := depArr_fold_delay l _ res h
          rwa [show lastTagged "Delay" (a :: l) = lastTagged "Delay" l by
            simp [lastTagged, List.filter_cons, hD]]
        · rw [show depArrStep s0 a = Except.ok s0 by
            simp [depArrStep, hT, hD, hP]] at h
          have := depArr_fold_delay l _ res h
          rwa [show lastTagged "Delay" (a :: l) = lastTagged "Delay" l by
            simp [lastTagged, List.filter_cons, hD]]

/-- The inductive core behind the time claims: the timestamp component of the
`__handle_departure_or_arrival` state is the initial one when no `Time` child
occurs, and the raw text of the last `Time` child otherwise. -/
theorem depArr_fold_time :
    ∀ (children : List XmlNode) (s0 res : PyVal × Int × PyVal),
    foldlE depArrStep s0 children = Except.ok res →
    (lastTagged "Time" children = none ∧ res.1 = s0.1) ∨
    (∃ c, lastTagged "Time" children = some c ∧ res.1 = pyOfText c.text)
  | [], s0, res, h => by
    left
    refine ⟨rfl, ?_⟩
    simp only [foldlE, Except.ok.injEq] at h
    rw [h]
  | a :: l, s0, res, h => by
    simp only [foldlE] at h
    by_cases hT : (a.tag == "Time") = true
    · rw [show depArrStep s0 a = Except.ok (pyOfText a.text, s0.2.1, s0.2.2) by
        simp [depArrStep, hT]] at h
      have hlt : lastTagged "Time" (a :: l) =
          some (((l.filter (fun c => c.tag == "Time")).getLast?).getD a) := by
        simp only [lastTagged, List.filter_cons, hT, if_true]
        exact getLast?_cons_eq a _
      rcases depArr_fold_time l _ res h with ⟨hnone, hres⟩ | ⟨c, hc, hres⟩
      · right
        refine ⟨a, ?_, by simpa using hres⟩
        simp only [lastTagged] at hnone
        rw [hlt, hnone]
        rfl
      · right
        refine ⟨c, ?_, hres⟩
        simp only [lastTagged] at hc
        rw [hlt, hc]
        rfl
    · have hfilter : lastTagged "Time" (a :: l) = lastTagged "Time" l := by
        simp [lastTagged, List.filter_cons, hT]
      by_cases hD : (a.tag == "Delay") = true
      · have hstep : depArrStep s0 a =
            (fun d => ((s0.1 : PyVal), 60 * d, s0.2.2)) <$> pyInt a.text := by
          simp [depArrStep, hT, hD]
        rw [hstep] at h
        cases hk : pyInt a.text with
        | error e => rw [hk] at h; simp at h
        | ok k =>
          rw [hk] at h
          simp only [map_ok] at h
          have := depArr_fold_time l _ res h
          rwa [hfilter]
      · by_cases hP : (a.tag == "Platform") = true
        · rw [show depArrStep s0 a = Except.ok (s0.1, s0.2.1, pyOfText a.text) by
            simp [depArrStep, hT, hD, hP]] at h
          have := depArr_fold_time l _ res h
          rwa [hfilter]
        · rw [show depArrStep s0 a = Except.ok s0 by
            simp [depArrStep, hT, hD, hP]] at h
          have := depArr_fold_time l _ res h
          rwa [hfilter]

/-! ## Claim C1 -/

/-- Claim C1, counterexample: in the board parse of `c1doc` (start time 23:50,
stop time text `"00:30"`, so the stop's hour-of-day is strictly below the
start hour) the resolved time is the raw string `"00:30"`, not an integer
unix timestamp at all — the timestamp arithmetic of the claim is absent from
the code. -/
theorem time_claim_counterexample :
    connTimes (get_stboard c1doc) = Except.ok [some (PyVal.vStr "00:30")] ∧
    PyVal.isInt (PyVal.vStr "00:30") = false ∧
    boardStartTime c1doc = some "23:50" :=
  ⟨rfl, rfl, rfl⟩

/-- Claim C1 (amended): the resolved time of a stop is the raw `"HH:MM"` text
of the last `Time` child (degraded mode), or the integer 0 when no `Time`
child occurs; the query's start date and start time are ignored (no timezone
conversion and no 86400-second day-change adjustment happens). -/
theorem time_resolver_raw_text (children : List XmlNode) (sd st sd' st' : Option String)
    (t : PyVal) (d : Int) (p : PyVal)
    (h : handle_departure_or_arrival children sd st = Except.ok (t, d, p)) :
    handle_departure_or_arrival children sd' st' = Except.ok (t, d, p) ∧
    ((lastTagged "Time" children = none ∧ t = PyVal.vInt 0) ∨
     (∃ c, lastTagged "Time" children = some c ∧ t = pyOfText c.text)) := by
  refine ⟨h, ?_⟩
  simpa using depArr_fold_time children _ (t, d, p) h

/-- Witness for `time_resolver_raw_text` at the concrete `Dep` element. -/
theorem time_resolver_raw_text_witness :
    handle_departure_or_arrival exDep.children none none =
      Except.ok (PyVal.vStr "00:30", 120, PyVal.vStr "4") ∧
    ((lastTagged "Time" exDep.children = none ∧ PyVal.vStr "00:30" = PyVal.vInt 0) ∨
     (∃ c, lastTagged "Time" exDep.children = some c ∧
       PyVal.vStr "00:30" = pyOfText c.text)) :=
  time_resolver_raw_text exDep.children (some "20160101") (some "23:50") none none
    (PyVal.vStr "00:30") 120 (PyVal.vStr "4") rfl

/-! ## Claim C2 -/

/-- Claim C2, counterexample: with the origin station element absent,
`get_stboard` raises `TypeError` (from `list(None)`), not
`StationNotFoundException`; and with the element present but childless the
parse succeeds, returning an empty station record. -/
theorem origin_station_failure_counterexample :
    get_stboard c2absentDoc = Except.error PyErr.typeError ∧
    PyErr.typeError ≠ PyErr.stationNotFound ∧
    get_stboard c2emptyDoc = Except.ok ({}, []) :=
  ⟨rfl, by decide, rfl⟩

/-- Claim C2 (amended): when the origin `Station` element is absent the board
parse fails with `TypeError`; `StationNotFoundException` is raised exactly
when the station-record parser itself raises `TypeError` on the element's
children (e.g. an `ExternalId` child without text or without a `pooluic`
attribute). -/
theorem origin_station_failure_modes (root stT : XmlNode)
    (hT : xFindP root ["SBRes", "SBReq", "StartT"] = some stT) :
    (xFindP root ["SBRes", "SBReq", "Start", "Station"] = none →
      get_stboard root = Except.error PyErr.typeError) ∧
    (∀ stn, xFindP root ["SBRes", "SBReq", "Start", "Station"] = some stn →
      handle_station stn.children = Except.error PyErr.typeError →
      get_stboard root = Except.error PyErr.stationNotFound) := by
  constructor
  · intro hS
    simp [get_stboard, hT, hS]
  · intro stn hS hn
    simp [get_stboard, hT, hS, hn]

/-- Witness for `origin_station_failure_modes` at the station-less document. -/
theorem origin_station_failure_modes_witness :
    (xFindP c2absentDoc ["SBRes", "SBReq", "Start", "Station"] = none →
      get_stboard c2absentDoc = Except.error PyErr.typeError) ∧
    (∀ stn, xFindP c2absentDoc ["SBRes", "SBReq", "Start", "Station"] = some stn →
      handle_station stn.children = Except.error PyErr.typeError →
      get_stboard c2absentDoc = Except.error PyErr.stationNotFound) :=
  origin_station_failure_modes c2absentDoc
    ⟨"StartT", [("date", "20160101"), ("time", "23:50")], none, []⟩ rfl

/-! ## Claim C4 -/

/-- Claim C4: for every parsed stop time triple the delay is 60 times the
parsed integer value of the (last) `Delay` child when one is present and 0
when none is; hence `delay` is always a multiple of 60. -/
theorem delay_seconds_spec (children : List XmlNode) (sd st : Option String)
    (t : PyVal) (d : Int) (p : PyVal)
    (h : handle_departure_or_arrival children sd st = Except.ok (t, d, p)) :
    (60 : Int) ∣ d ∧
    (lastTagged "Delay" children = none → d = 0) ∧
    (∀ c, lastTagged "Delay" children = some c →
      ∃ k, pyInt c.text = Except.ok k ∧ d = 60 * k) := by
  rcases depArr_fold_delay children _ (t, d, p) h with ⟨hn, hd⟩ | ⟨c, k, hc, hk, hd⟩
  · have hd0 : d = 0 := hd
    exact ⟨by simp [hd0], fun _ => hd0, fun c hc => by rw [hn] at hc; cases hc⟩
  · have hd' : d = 60 * k := hd
    refine ⟨hd' ▸ Dvd.intro k rfl, ?_, ?_⟩
    · intro h0
      rw [h0] at hc
      cases hc
    intro c' hc'
    rw [hc] at hc'
    injection hc' with he
    subst he
    exact ⟨k, hk, hd'⟩

/-- Witness for `delay_seconds_spec` at the concrete `Dep` element. -/
theorem delay_seconds_spec_witness :
    (60 : Int) ∣ 120 ∧
    (lastTagged "Delay" exDep.children = none → (120 : Int) = 0) ∧
    (∀ c, lastTagged "Delay" exDep.children = some c →
      ∃ k, pyInt c.text = Except.ok k ∧ (120 : Int) = 60 * k) :=
  delay_seconds_spec exDep.children (some "20160101") (some "23:50")
    (PyVal.vStr "00:30") 120 (PyVal.vStr "4") rfl

/-! ## Claim C3 -/

/-- Walking basic-stop children without any `Location` child never changes
the `location` field of the stop dict. -/
theorem basicStop_fold_no_location :
    ∀ (children : List XmlNode) (sd st : Option String) (s stop : StDict),
    (∀ c ∈ children, (c.tag == "Location") = false) →
    foldlE (basicStopStep sd st) s children = Except.ok stop →
    stop.location = s.location
  | [], _, _, s, stop, _, h => by
    simp only [foldlE, Except.ok.injEq] at h
    rw [← h]
  | a :: l, sd, st, s, stop, hno, h => by
    simp only [foldlE] at h
    have ha : (a.tag == "Location") = false := hno a (by simp)
    have hl : ∀ c ∈ l, (c.tag == "Location") = false := fun c hc => hno c (by simp [hc])
    by_cases hda : (a.tag == "Dep" || a.tag == "Arr") = true
    · have hstep : basicStopStep sd st s a =
          (fun tdp => { s with time := some tdp.1, delay := some tdp.2.1, platform := some tdp.2.2 }) <$>
            handle_departure_or_arrival a.children sd st := by
        simp [basicStopStep, ha, hda]
      rw [hstep] at h
      cases hk : handle_departure_or_arrival a.children sd st with
      | error e => rw [hk] at h; simp at h
      | ok tdp =>
        rw [hk] at h
        simp only [map_ok] at h
        have hres := basicStop_fold_no_location l sd st
          { s with time := some tdp.1, delay := some tdp.2.1, platform := some tdp.2.2 } stop hl h
        exact hres
    · rw [show basicStopStep sd st s a = Except.ok s by
        simp [basicStopStep, ha, hda]] at h
      exact basicStop_fold_no_location l sd st s stop hl h

/-- Claim C3, counterexample: a journey whose main stop has no `Location`
child makes `get_stboard` fail — with `KeyError` on `external_id` (the
identity comparison for the origin back-fill reads a key the stop dict does
not have). -/
theorem mainstop_missing_location_counterexample :
    get_stboard c3badDoc = Except.error (PyErr.keyError "external_id") ∧
    (∀ c ∈ exStopNoLoc.children, (c.tag == "Location") = false) :=
  ⟨rfl, by decide⟩

/-- Claim C3 (amended): a basic stop without a `Location` child parses to a
stop record with the `location` field absent, and a board whose journey
carries such a stop in its pass list still parses successfully (witnessed on
`c3doc`, whose index-3 pass stop has no location); only a location-less
main stop makes the board parse fail. -/
theorem stop_location_optional (leaf : XmlNode) (sd st : Option String)
    (i : Int) (stop : StDict)
    (hnoloc : ∀ c ∈ leaf.children, (c.tag == "Location") = false)
    (h : handle_basic_stop leaf sd st = Except.ok (i, stop)) :
    stop.location = none ∧
    passStopLocations (get_stboard c3doc) =
      Except.ok [[(0, true), (3, false)]] := by
  refine ⟨?_, by rfl⟩
  unfold handle_basic_stop at h
  cases hidx : pyInt (xGet leaf "index") with
  | error e => rw [hidx] at h; simp at h
  | ok idx =>
    rw [hidx] at h
    simp only [ok_bind] at h
    cases hf : foldlE (basicStopStep sd st) {} leaf.children with
    | error e => rw [hf] at h; simp at h
    | ok s =>
      rw [hf] at h
      simp only [ok_bind, map_ok, pure_eq_ok, Except.ok.injEq, Prod.mk.injEq] at h
      rw [← h.2]
      exact basicStop_fold_no_location leaf.children sd st {} s hnoloc hf

/-- Witness for `stop_location_optional` at the location-less stop. -/
theorem stop_location_optional_witness :
    ({ time := some (PyVal.vStr "00:30"), delay := some 120,
       platform := some (PyVal.vStr "4") } : StDict).location = none ∧
    passStopLocations (get_stboard c3doc) =
      Except.ok [[(0, true), (3, false)]] :=
  stop_location_optional exStopNoLoc (some "20160101") (some "23:50") 3
    { time := some (PyVal.vStr "00:30"), delay := some 120,
      platform := some (PyVal.vStr "4") } (by decide) (by rfl)

/-! ## Claim C10 -/

/-- A state-ignoring loop body gives a state-independent fold on a nonempty
list. -/
theorem foldlE_state_free {α σ : Type} (g : α → Except PyErr σ) (a : α) (l : List α)
    (s s' : σ) :
    foldlE (fun _ x => g x) s (a :: l) = foldlE (fun _ x => g x) s' (a :: l) := by
  simp only [foldlE]

/-- Processing a `Location` child that contains at least one station child
replaces the stop dict: the step's result does not depend on the incoming
state. -/
theorem basicStopStep_location_state_free (sd st : Option String) (loc : XmlNode)
    (hl : (loc.tag == "Location") = true) (hc : loc.children ≠ []) (s s' : StDict) :
    basicStopStep sd st s loc = basicStopStep sd st s' loc := by
  simp only [basicStopStep, hl, if_true]
  cases pyInt (xGet loc "x") with
  | error e => rfl
  | ok x =>
    simp only [ok_bind]
    cases pyInt (xGet loc "y") with
    | error e => rfl
    | ok y =>
      simp only [ok_bind]
      cases hch : loc.children with
      | nil => exact absurd hch hc
      | cons a l => exact foldlE_state_free _ a l s s'

/-- Claim C10, counterexample: a `Dep` child *does* precede a `Location`
child in `c10node`, yet its time/delay/platform survive in the output —
the childless `Location` element does not replace the stop record. -/
theorem basic_stop_order_counterexample :
    handle_basic_stop c10node (some "20160101") (some "23:50") =
      Except.ok (5, { time := some (PyVal.vStr "00:30"), delay := some 120, platform := some (PyVal.vStr "4") }) ∧
    c10node.children.map XmlNode.tag = ["Dep", "Location"] :=
  ⟨by rfl, rfl⟩

/-- Claim C10 (amended): a `Location` child that contains at least one
station child replaces the whole stop record, so everything parsed from
children preceding it — in particular a `Dep`/`Arr` child's time, delay and
platform — is discarded: parsing the stop is equivalent to parsing it with
those preceding children removed. -/
theorem location_replaces_state_spec (sd st : Option String) (tg : String)
    (attrs : List (String × String)) (txt : Option String)
    (pre suf : List XmlNode) (loc : XmlNode)
    (hl : (loc.tag == "Location") = true) (hc : loc.children ≠ [])
    (s : StDict) (hpre : foldlE (basicStopStep sd st) {} pre = Except.ok s) :
    handle_basic_stop ⟨tg, attrs, txt, pre ++ loc :: suf⟩ sd st =
      handle_basic_stop ⟨tg, attrs, txt, loc :: suf⟩ sd st := by
  have key : foldlE (basicStopStep sd st) ({} : StDict) (pre ++ loc :: suf) =
      foldlE (basicStopStep sd st) {} (loc :: suf) := by
    rw [foldlE_append, hpre, ok_bind]
    show foldlE (basicStopStep sd st) s (loc :: suf) = _
    simp only [foldlE]
    rw [basicStopStep_location_state_free sd st loc hl hc s {}]
  simp only [handle_basic_stop, key, xGet]

/-- Witness for `location_replaces_state_spec`: with a well-formed location
child after a `Dep` child, the earlier departure data is discarded. -/
theorem location_replaces_state_spec_witness :
    handle_basic_stop ⟨"BasicStop", [("index", "0")], none,
        [exDep] ++ exLocAt "8683000" :: []⟩ (some "20160101") (some "23:50") =
      handle_basic_stop ⟨"BasicStop", [("index", "0")], none,
        exLocAt "8683000" :: []⟩ (some "20160101") (some "23:50") :=
  location_replaces_state_spec (some "20160101") (some "23:50") "BasicStop"
    [("index", "0")] none [exDep] [] (exLocAt "8683000") rfl (by simp [exLocAt]) _ rfl

/-! ## Claim C7 -/

theorem dictInsert_nil {κ β : Type} [DecidableEq κ] (k : κ) (v : β) :
    dictInsert [] k v = [(k, v)] := rfl

theorem dictInsert_singleton_same {κ β : Type} [DecidableEq κ] (k : κ) (a v : β) :
    dictInsert [(k, a)] k v = [(k, v)] := by
  simp [dictInsert]

/-- Repeatedly writing the same key into the inner attribute dict keeps a
single entry holding the last written value. -/
theorem variant_text_fold :
    ∀ (l : List XmlNode) (vt : String) (s : List (String × Option String)),
    (s = [] ∨ ∃ a, s = [(vt, a)]) → l ≠ [] →
    ∃ c, l.getLast? = some c ∧
      l.foldl (fun inn tf => dictInsert inn vt tf.text) s = [(vt, c.text)]
  | [], _, _, _, hne => absurd rfl hne
  | [a], vt, s, hs, _ => by
    refine ⟨a, rfl, ?_⟩
    rcases hs with h | ⟨x, h⟩ <;> subst h
    · simp [dictInsert_nil]
    · simp [dictInsert_singleton_same]
  | a :: b :: l, vt, s, hs, _ => by
    have hins : dictInsert s vt a.text = [(vt, a.text)] := by
      rcases hs with h | ⟨x, h⟩ <;> subst h
      · exact dictInsert_nil vt a.text
      · exact dictInsert_singleton_same vt x a.text
    obtain ⟨c, hc, hf⟩ :=
      variant_text_fold (b :: l) vt [(vt, a.text)] (Or.inr ⟨a.text, rfl⟩) (by simp)
    refine ⟨c, ?_, ?_⟩
    · rw [List.getLast?_cons_cons]
      exact hc
    · simp only [List.foldl_cons]
      rw [hins]
      exact hf

/-- The inner fold of `handleAttr` over a run of variants sharing one
lower-cased type yields the single binding to the last variant's text. -/
theorem attr_variants_fold :
    ∀ (variants : List XmlNode) (vt : String) (s : List (String × Option String)),
    (∀ v ∈ variants, (v.tag == "AttributeVariant") = true ∧ v.children ≠ [] ∧
      ∃ tv, xGet v "type" = some tv ∧ pyLower tv = vt) →
    (s = [] ∨ ∃ a, s = [(vt, a)]) →
    variants ≠ [] →
    ∃ t, lastVariantText variants = some t ∧
      foldlE attrTypeStep s variants = Except.ok [(vt, t)]
  | [], _, _, _, _, hne => absurd rfl hne
  | [v], vt, s, hall, hs, _ => by
    obtain ⟨hv, hcne, tv, htv, hlow⟩ := hall v (by simp)
    have hcode : (v.tag == "AttributeCode") = false := by
      simp only [beq_iff_eq] at hv ⊢
      simp [hv]
    obtain ⟨c, hc, hfold⟩ := variant_text_fold v.children vt s hs hcne
    refine ⟨c.text, by simp [lastVariantText, hc], ?_⟩
    have hstep : attrTypeStep s v =
        Except.ok (v.children.foldl (fun inn tf => dictInsert inn vt tf.text) s) := by
      simp [attrTypeStep, hcode, hv, htv, hlow, pure_eq_ok]
    simp only [foldlE, hstep, hfold]
  | v :: w :: rest, vt, s, hall, hs, _ => by
    obtain ⟨hv, hcne, tv, htv, hlow⟩ := hall v (by simp)
    have hcode : (v.tag == "AttributeCode") = false := by
      simp only [beq_iff_eq] at hv ⊢
      simp [hv]
    obtain ⟨cv, _, hs'⟩ := variant_text_fold v.children vt s hs hcne
    have hstep : attrTypeStep s v =
        Except.ok (v.children.foldl (fun inn tf => dictInsert inn vt tf.text) s) := by
      simp [attrTypeStep, hcode, hv, htv, hlow, pure_eq_ok]
    obtain ⟨t, hlt, hfold⟩ := attr_variants_fold (w :: rest) vt
      (v.children.foldl (fun inn tf => dictInsert inn vt tf.text) s)
      (fun u hu => hall u (by simp [hu])) (Or.inr ⟨cv.text, hs'⟩) (by simp)
    refine ⟨t, ?_, ?_⟩
    · simp only [lastVariantText, List.getLast?_cons_cons] at hlt ⊢
      exact hlt
    · simp only [foldlE, hstep]
      exact hfold

/-- Claim C7: when an attribute's variants all share one lower-cased type,
the connection's named-attribute mapping gets a single entry for that type
whose value is the text of the last variant in document order (last wins). -/
theorem attribute_variant_last_wins
    (conn_attrs : List (String × List (String × Option String)))
    (attr : XmlNode) (ty vt : String)
    (hty : xGet attr "type" = some ty)
    (hvars : ∀ v ∈ attr.children, (v.tag == "AttributeVariant") = true ∧ v.children ≠ [] ∧
      ∃ tv, xGet v "type" = some tv ∧ pyLower tv = vt)
    (hne : attr.children ≠ []) :
    ∃ t, lastVariantText attr.children = some t ∧
      handleAttr conn_attrs attr =
        Except.ok (dictInsert conn_attrs (pyLower ty) [(vt, t)]) := by
  obtain ⟨t, hlt, hfold⟩ := attr_variants_fold attr.children vt [] hvars (Or.inl rfl) hne
  refine ⟨t, hlt, ?_⟩
  simp [handleAttr, hty, hfold, pure_eq_ok]

/-- Witness for `attribute_variant_last_wins`: two variants typed `NORMAL`
and `Normal`; the single `normal` entry holds the second variant's text. -/
theorem attribute_variant_last_wins_witness :
    lastVariantText c7attr.children = some (some "S8") ∧
    (∃ t, lastVariantText c7attr.children = some t ∧
      handleAttr [] c7attr =
        Except.ok (dictInsert [] (pyLower "NAME") [("normal", t)])) :=
  ⟨rfl, attribute_variant_last_wins [] c7attr "NAME" "normal" rfl
    (by
      intro v hv
      simp only [c7attr, List.mem_cons, List.mem_singleton, List.not_mem_nil, or_false] at hv
      rcases hv with h | h <;> subst h
      · exact ⟨rfl, by simp, "NORMAL", rfl, by decide⟩
      · exact ⟨rfl, by simp, "Normal", rfl, by decide⟩)
    (by simp [c7attr])⟩

/-! ## Claim C8 -/

/-- `int()` succeeds on every string `isdigit()` accepts, with the digits'
numeric value. -/
theorem pyInt_of_digits (s : String) (h : pyIsDigit s = true) :
    pyInt (some s) = Except.ok (natOfDigits s.data : Int) := by
  unfold pyIsDigit at h
  rw [Bool.and_eq_true, Bool.not_eq_true'] at h
  cases hdata : s.data with
  | nil => rw [hdata] at h; simp at h
  | cons c cs =>
    have hall : (c :: cs).all Char.isDigit = true := hdata ▸ h.2
    have hcd : c.isDigit = true := by
      rw [List.all_cons, Bool.and_eq_true] at hall
      exact hall.1
    have hminus : ¬(c = '-') := by
      rintro rfl
      simp [Char.isDigit] at hcd
    have hplus : ¬(c = '+') := by
      rintro rfl
      simp [Char.isDigit] at hcd
    simp [pyInt, parseIntStr, hdata, hminus, hplus, hall]

/-- Claim C8: a suggestion entry with all required keys (and a numeric
weight) always yields a record without raising: a coordinate field that is
not all digits leaves the corresponding `lat`/`lon` absent, an all-digit one
yields the decoded value divided by 1000. -/
theorem autocomplete_coord_spec (stop : SuggEntry) (v e yc xc w pc ty : String)
    (hv : stop.value = some v) (he : stop.extId = some e) (hy : stop.ycoord = some yc)
    (hx : stop.xcoord = some xc) (hw : stop.weight = some w) (hwd : pyIsDigit w = true)
    (hpc : stop.prodClass = some pc) (hty : stop.type = some ty) :
    parseSuggestion stop = Except.ok
      ⟨v, e, (if pyIsDigit yc = true then some ((natOfDigits yc.data : ℚ) / 1000) else none),
        (if pyIsDigit xc = true then some ((natOfDigits xc.data : ℚ) / 1000) else none),
        (natOfDigits w.data : Int), pc, ty⟩ ∧
    foldlE suggestionStep [] [stop] = Except.ok
      [⟨v, e, (if pyIsDigit yc = true then some ((natOfDigits yc.data : ℚ) / 1000) else none),
        (if pyIsDigit xc = true then some ((natOfDigits xc.data : ℚ) / 1000) else none),
        (natOfDigits w.data : Int), pc, ty⟩] := by
  have hparse : parseSuggestion stop = Except.ok
      ⟨v, e, (if pyIsDigit yc = true then some ((natOfDigits yc.data : ℚ) / 1000) else none),
        (if pyIsDigit xc = true then some ((natOfDigits xc.data : ℚ) / 1000) else none),
        (natOfDigits w.data : Int), pc, ty⟩ := by
    unfold parseSuggestion
    simp only [hv, he, hy, hx, hw, hpc, hty, getKey, ok_bind, pyInt_of_digits w hwd]
    by_cases hyd : pyIsDigit yc = true <;> by_cases hxd : pyIsDigit xc = true <;>
      simp [hyd, hxd, pyInt_of_digits yc, pyInt_of_digits xc, pure_eq_ok]
  refine ⟨hparse, ?_⟩
  simp only [foldlE, suggestionStep, hparse, List.nil_append]

/-- Witness for `autocomplete_coord_spec` at `c8entry` (digit `ycoord`,
non-digit `xcoord`). -/
theorem autocomplete_coord_spec_witness :
    parseSuggestion c8entry = Except.ok
      ⟨"Frankfurt", "003000010",
        (if pyIsDigit "50110" = true
          then some ((natOfDigits "50110".data : ℚ) / 1000) else none),
        (if pyIsDigit "8.683" = true
          then some ((natOfDigits "8.683".data : ℚ) / 1000) else none),
        (natOfDigits "9".data : Int), "31", "1"⟩ ∧
    foldlE suggestionStep [] [c8entry] = Except.ok
      [⟨"Frankfurt", "003000010",
        (if pyIsDigit "50110" = true
          then some ((natOfDigits "50110".data : ℚ) / 1000) else none),
        (if pyIsDigit "8.683" = true
          then some ((natOfDigits "8.683".data : ℚ) / 1000) else none),
        (natOfDigits "9".data : Int), "31", "1"⟩] :=
  autocomplete_coord_spec c8entry "Frankfurt" "003000010" "50110" "8.683" "9" "31" "1"
    rfl rfl rfl rfl rfl (by decide) rfl rfl

/-! ## Claim C6 -/

theorem pyFindAux_head (c : Char) (l : List Char) : pyFindAux c (c :: l) = some 0 := by
  simp [pyFindAux]

theorem pyFindAux_append_of_not_mem (c : Char) :
    ∀ (l₁ : List Char), c ∉ l₁ → ∀ l₂ : List Char,
    pyFindAux c (l₁ ++ l₂) = (pyFindAux c l₂).map (· + l₁.length)
  | [], _, l₂ => by
    simp only [List.nil_append]
    cases pyFindAux c l₂ <;> simp
  | a :: l, h, l₂ => by
    have ha : ¬(a = c) := by
      rintro rfl
      exact h (List.mem_cons_self a l)
    show (if a = c then some 0 else (pyFindAux c (l ++ l₂)).map (· + 1)) =
      (pyFindAux c l₂).map (· + (a :: l).length)
    rw [if_neg ha]
    rw [pyFindAux_append_of_not_mem c l (fun hm => h (List.mem_cons_of_mem a hm)) l₂]
    cases pyFindAux c l₂ with
    | none => rfl
    | some i => simp [Nat.add_assoc]

theorem pyRFindAux_eq_none_of_not_mem (c : Char) :
    ∀ (l : List Char), c ∉ l → pyRFindAux c l = none
  | [], _ => rfl
  | a :: l, h => by
    have ha : ¬(a = c) := by
      rintro rfl
      exact h (List.mem_cons_self a l)
    simp only [pyRFindAux]
    rw [pyRFindAux_eq_none_of_not_mem c l (fun hm => h (List.mem_cons_of_mem a hm))]
    simp [ha]

theorem pyRFindAux_append_right_none (c : Char) :
    ∀ (l₁ l₂ : List Char), c ∉ l₂ → pyRFindAux c (l₁ ++ l₂) = pyRFindAux c l₁
  | [], l₂, h => by
    simp only [List.nil_append]
    rw [pyRFindAux_eq_none_of_not_mem c l₂ h]
    rfl
  | a :: l, l₂, h => by
    show (match pyRFindAux c (l ++ l₂) with
      | some i => some (i + 1)
      | none => if a = c then some 0 else none) =
      (match pyRFindAux c l with
      | some i => some (i + 1)
      | none => if a = c then some 0 else none)
    rw [pyRFindAux_append_right_none c l l₂ h]

theorem pyRFindAux_concat (c : Char) :
    ∀ (l : List Char), pyRFindAux c (l ++ [c]) = some l.length
  | [] => by simp [pyRFindAux]
  | a :: l => by
    show (match pyRFindAux c (l ++ [c]) with
      | some i => some (i + 1)
      | none => if a = c then some 0 else none) = some (a :: l).length
    rw [pyRFindAux_concat c l]
    rfl

/-- Stripping the padding of a payload built from brace-free padding around a
brace-delimited body returns exactly the body. -/
theorem stripPadding_padded (pre body post : List Char)
    (h1 : '{' ∉ pre) (h2 : '}' ∉ post)
    (h3 : body.head? = some '{') (h4 : body.getLast? = some '}') :
    stripPadding (pre ++ body ++ post) = body := by
  obtain ⟨rest, rfl⟩ : ∃ rest, body = '{' :: rest := by
    cases body with
    | nil => cases h3
    | cons b bs =>
      injection h3 with hb
      exact ⟨bs, by rw [hb]⟩
  have hbody4 : '}' ∈ ('{' :: rest).getLast? := h4
  have hinit : ('{' :: rest).dropLast ++ ['}'] = '{' :: rest :=
    List.dropLast_append_getLast? '}' hbody4
  set init := ('{' :: rest).dropLast with hinitdef
  have hlen : init.length + 1 = rest.length + 1 := by
    have := congrArg List.length hinit
    simpa using this
  have hfind : pyFind (pre ++ '{' :: rest ++ post) '{' = (pre.length : Int) := by
    unfold pyFind
    rw [show pre ++ '{' :: rest ++ post = pre ++ ('{' :: (rest ++ post)) by
      simp [List.append_assoc]]
    rw [pyFindAux_append_of_not_mem '{' pre h1, pyFindAux_head]
    simp
  have hrfind : pyRFind (pre ++ '{' :: rest ++ post) '}' =
      ((pre.length + init.length : Nat) : Int) := by
    unfold pyRFind
    rw [show pre ++ '{' :: rest ++ post = ((pre ++ init) ++ ['}']) ++ post by
      conv_lhs => rw [← hinit]
      simp [List.append_assoc]]
    rw [pyRFindAux_append_right_none '}' ((pre ++ init) ++ ['}']) post h2]
    rw [pyRFindAux_concat '}' (pre ++ init)]
    simp
  unfold stripPadding
  rw [hfind, hrfind]
  have hslen : (pre ++ '{' :: rest ++ post).length =
      pre.length + (rest.length + 1) + post.length := by
    simp [List.length_append]
    omega
  have hi : pyIndexClamp (pre ++ '{' :: rest ++ post).length (pre.length : Int) =
      pre.length := by
    unfold pyIndexClamp
    rw [if_neg (by omega)]
    rw [hslen]
    omega
  have hj : pyIndexClamp (pre ++ '{' :: rest ++ post).length
      (((pre.length + init.length : Nat) : Int) + 1) = pre.length + (rest.length + 1) := by
    unfold pyIndexClamp
    rw [if_neg (by omega)]
    rw [hslen]
    omega
  unfold pySlice
  rw [hi, hj]
  rw [show pre ++ '{' :: rest ++ post = (pre ++ '{' :: rest) ++ post by
    simp [List.append_assoc]]
  rw [show pre.length + (rest.length + 1) = (pre ++ '{' :: rest).length by
    simp [List.length_append]]
  rw [List.take_left]
  rw [List.drop_left]

/-- Stripping the padding of an already-clean brace-delimited body is the
identity. -/
theorem stripPadding_id (body : List Char)
    (h3 : body.head? = some '{') (h4 : body.getLast? = some '}') :
    stripPadding body = body := by
  have := stripPadding_padded [] body [] (by simp) (by simp) h3 h4
  simpa using this

/-- Claim C6: parsing a padded autocomplete payload (brace-free padding
before and after a brace-delimited JSON body) yields exactly the same record
list as parsing the body alone. -/
theorem autocomplete_padding_spec (decode : List Char → Except PyErr (List SuggEntry))
    (pre body post : List Char)
    (h1 : '{' ∉ pre) (h2 : '}' ∉ post)
    (h3 : body.head? = some '{') (h4 : body.getLast? = some '}') :
    get_autocomplete_locations decode (pre ++ body ++ post) =
      get_autocomplete_locations decode body := by
  unfold get_autocomplete_locations
  rw [stripPadding_padded pre body post h1 h2 h3 h4, stripPadding_id body h3 h4]

/-- Witness for `autocomplete_padding_spec` at concrete padding and body. -/
theorem autocomplete_padding_spec_witness :
    get_autocomplete_locations c6decode ("pad".data ++ ['{', 'a', '}'] ++ "tail".data) =
      get_autocomplete_locations c6decode ['{', 'a', '}'] :=
  autocomplete_padding_spec c6decode "pad".data ['{', 'a', '}'] "tail".data
    (by decide) (by decide) rfl rfl

/-! ## Shared infrastructure for the stop-mapping and back-fill claims -/

theorem getKey_ok {α : Type} (x : Option α) (k : String) (v : α)
    (h : getKey x k = Except.ok v) : x = some v := by
  cases x with
  | none => simp [getKey] at h
  | some a =>
    simp only [getKey, Except.ok.injEq] at h
    rw [h]

theorem dictAny_iff {κ β : Type} [DecidableEq κ] (d : List (κ × β)) (k : κ) :
    (d.any (fun p => decide (p.1 = k))) = true ↔ k ∈ dictKeys d := by
  simp [dictKeys, List.any_eq_true, List.mem_map]

theorem dictKeys_insert_mem {κ β : Type} [DecidableEq κ] (d : List (κ × β)) (k : κ) (v : β)
    (h : k ∈ dictKeys d) : dictKeys (dictInsert d k v) = dictKeys d := by
  unfold dictInsert
  rw [if_pos ((dictAny_iff d k).2 h)]
  unfold dictKeys
  rw [List.map_map]
  apply List.map_congr_left
  intro p _
  by_cases hpk : p.1 = k
  · simp [hpk]
  · simp [hpk]

theorem dictKeys_insert_not_mem {κ β : Type} [DecidableEq κ] (d : List (κ × β)) (k : κ)
    (v : β) (h : k ∉ dictKeys d) : dictKeys (dictInsert d k v) = dictKeys d ++ [k] := by
  unfold dictInsert
  rw [if_neg (fun hc => h ((dictAny_iff d k).1 hc))]
  simp [dictKeys]

theorem dictKeys_insert_nodup {κ β : Type} [DecidableEq κ] (d : List (κ × β)) (k : κ)
    (v : β) (h : (dictKeys d).Nodup) : (dictKeys (dictInsert d k v)).Nodup := by
  by_cases hk : k ∈ dictKeys d
  · rw [dictKeys_insert_mem d k v hk]
    exact h
  · rw [dictKeys_insert_not_mem d k v hk]
    rw [List.nodup_append]
    refine ⟨h, List.nodup_singleton k, ?_⟩
    intro a ha hak
    rw [List.mem_singleton] at hak
    subst hak
    exact hk ha

theorem dictInsert_fresh {κ β : Type} [DecidableEq κ] (d : List (κ × β)) (k : κ) (v : β)
    (h : k ∉ dictKeys d) : dictInsert d k v = d ++ [(k, v)] := by
  unfold dictInsert
  rw [if_neg (fun hc => h ((dictAny_iff d k).1 hc))]

theorem entriesInsert_cons (d : List (Int × StDict)) (e : Bool × Int × StDict)
    (es : List (Bool × Int × StDict)) :
    entriesInsert d (e :: es) = entriesInsert (dictInsert d e.2.1 e.2.2) es := rfl

theorem entriesInsert_append (d : List (Int × StDict)) (es1 es2 : List (Bool × Int × StDict)) :
    entriesInsert d (es1 ++ es2) = entriesInsert (entriesInsert d es1) es2 := by
  simp [entriesInsert, List.foldl_append]

theorem entriesInsert_keys_nodup :
    ∀ (es : List (Bool × Int × StDict)) (d : List (Int × StDict)),
    (dictKeys d).Nodup → (dictKeys (entriesInsert d es)).Nodup
  | [], _, h => h
  | e :: es, d, h =>
    entriesInsert_keys_nodup es _ (dictKeys_insert_nodup d e.2.1 e.2.2 h)

theorem entriesInsert_fresh :
    ∀ (es : List (Bool × Int × StDict)) (d : List (Int × StDict)),
    (dictKeys d ++ es.map (fun e => e.2.1)).Nodup →
    entriesInsert d es = d ++ es.map (fun e => (e.2.1, e.2.2))
  | [], d, _ => by simp [entriesInsert]
  | e :: es, d, h => by
    simp only [List.map_cons] at h
    have hk : e.2.1 ∉ dictKeys d := by
      intro hmem
      rw [List.nodup_append] at h
      exact h.2.2 hmem (by simp)
    have hins : dictInsert d e.2.1 e.2.2 = d ++ [(e.2.1, e.2.2)] :=
      dictInsert_fresh d e.2.1 e.2.2 hk
    have hkeys : dictKeys (d ++ [(e.2.1, e.2.2)]) = dictKeys d ++ [e.2.1] := by
      simp [dictKeys]
    have hrec := entriesInsert_fresh es (d ++ [(e.2.1, e.2.2)]) (by
      rw [hkeys, List.append_assoc, List.singleton_append]
      exact h)
    rw [entriesInsert_cons, hins, hrec]
    simp

theorem mapE_length {α β : Type} (f : α → Except PyErr β) :
    ∀ (l : List α) (bs : List β), mapE f l = Except.ok bs → bs.length = l.length
  | [], bs, h => by
    simp only [mapE, Except.ok.injEq] at h
    rw [← h]
    rfl
  | a :: l, bs, h => by
    simp only [mapE] at h
    cases hf : f a with
    | error e => rw [hf] at h; simp at h
    | ok b =>
      rw [hf] at h
      cases hm : mapE f l with
      | error e => rw [hm] at h; simp at h
      | ok bs' =>
        rw [hm] at h
        simp only [Except.ok.injEq] at h
        rw [← h]
        simp [mapE_length f l bs' hm]

theorem journeyStopEntries_length (sd st : Option String) :
    ∀ (children : List XmlNode) (es : List (Bool × Int × StDict)),
    journeyStopEntries sd st children = Except.ok es → es.length = mainPassCountList children
  | [], es, h => by
    simp only [journeyStopEntries, Except.ok.injEq] at h
    rw [← h]
    rfl
  | elem :: rest, es, h => by
    simp only [journeyStopEntries] at h
    by_cases hm : (elem.tag == "MainStop") = true
    · rw [if_pos hm] at h
      cases hmap : mapE (fun n => (handle_basic_stop n sd st).map (fun r => (true, r.1, r.2)))
          elem.children with
      | error e => rw [hmap] at h; simp at h
      | ok es1 =>
        rw [hmap] at h
        cases hrest : journeyStopEntries sd st rest with
        | error e => rw [hrest] at h; simp at h
        | ok es2 =>
          rw [hrest] at h
          simp only [exmap_ok, Except.ok.injEq] at h
          rw [← h]
          simp only [List.length_append, mainPassCountList, hm]
          rw [mapE_length _ _ _ hmap, journeyStopEntries_length sd st rest es2 hrest]
          simp
    · rw [if_neg hm] at h
      by_cases hp : (elem.tag == "PassList") = true
      · rw [if_pos hp] at h
        cases hmap : mapE (fun n => (handle_basic_stop n sd st).map (fun r => (false, r.1, r.2)))
            elem.children with
        | error e => rw [hmap] at h; simp at h
        | ok es1 =>
          rw [hmap] at h
          cases hrest : journeyStopEntries sd st rest with
          | error e => rw [hrest] at h; simp at h
          | ok es2 =>
            rw [hrest] at h
            simp only [exmap_ok, Except.ok.injEq] at h
            rw [← h]
            simp only [List.length_append, mainPassCountList, hm, hp]
            rw [mapE_length _ _ _ hmap, journeyStopEntries_length sd st rest es2 hrest]
            simp
      · rw [if_neg hp] at h
        rw [journeyStopEntries_length sd st rest es h]
        simp [mainPassCountList, hm, hp]

theorem backfill_skip (o : StDict) :
    ∀ (es : List (Bool × Int × StDict)), (∀ e ∈ es, e.1 = false) →
    foldlE backfillFoldStep o es = Except.ok o
  | [], _ => rfl
  | e :: es, h => by
    have he : e.1 = false := h e (by simp)
    have hstep : backfillFoldStep o e = Except.ok o := by
      simp [backfillFoldStep, he]
    simp only [foldlE, hstep]
    exact backfill_skip o es (fun x hx => h x (by simp [hx]))

/-- Case analysis of one back-fill attempt: the identity and time fields of
the origin dict are never touched, and the location is set exactly when the
identity matches (in which case the stop's location key must exist). -/
theorem backfillStep_cases (o s o₁ : StDict) (h : backfillStep o s = Except.ok o₁) :
    o₁.external_id = o.external_id ∧ o₁.pooluic = o.pooluic ∧ o₁.name = o.name ∧
    o₁.time = o.time ∧ o₁.delay = o.delay ∧ o₁.platform = o.platform ∧
    ((matchesOrigin o s = true ∧ ∃ l, s.location = some l ∧
        o₁ = { o with location := some l }) ∨
     (matchesOrigin o s = false ∧ o₁ = o)) := by
  unfold backfillStep at h
  cases hse : getKey s.external_id "external_id" with
  | error e => rw [hse] at h; simp at h
  | ok se =>
    rw [hse] at h
    simp only [ok_bind] at h
    cases hoe : getKey o.external_id "external_id" with
    | error e => rw [hoe] at h; simp at h
    | ok oe =>
      rw [hoe] at h
      simp only [ok_bind] at h
      have hsesome := getKey_ok _ _ _ hse
      have hoesome := getKey_ok _ _ _ hoe
      by_cases heq : (se == oe) = true
      · rw [if_pos heq] at h
        cases hsp : getKey s.pooluic "pooluic" with
        | error e => rw [hsp] at h; simp at h
        | ok sp =>
          rw [hsp] at h
          simp only [ok_bind] at h
          cases hop : getKey o.pooluic "pooluic" with
          | error e => rw [hop] at h; simp at h
          | ok op =>
            rw [hop] at h
            simp only [ok_bind, pure_eq_ok] at h
            have hspsome := getKey_ok _ _ _ hsp
            have hopsome := getKey_ok _ _ _ hop
            by_cases hpeq : (sp == op) = true
            · rw [if_pos hpeq] at h
              cases hloc : getKey s.location "location" with
              | error e => rw [hloc] at h; simp at h
              | ok l =>
                rw [hloc] at h
                simp only [ok_bind, pure_eq_ok, Except.ok.injEq] at h
                subst h
                refine ⟨rfl, rfl, rfl, rfl, rfl, rfl,
                  Or.inl ⟨?_, l, getKey_ok _ _ _ hloc, rfl⟩⟩
                unfold matchesOrigin
                rw [hsesome, hoesome, hspsome, hopsome]
                simp only [beq_iff_eq] at heq hpeq
                simp [heq, hpeq]
            · rw [if_neg hpeq] at h
              simp only [Except.ok.injEq] at h
              subst h
              refine ⟨rfl, rfl, rfl, rfl, rfl, rfl, Or.inr ⟨?_, rfl⟩⟩
              unfold matchesOrigin
              rw [hsesome, hoesome, hspsome, hopsome]
              have hne : ¬(sp = op) := by simpa [beq_iff_eq] using hpeq
              simp [beq_iff_eq, hne]
      · rw [if_neg heq] at h
        simp only [pure_eq_ok, ok_bind] at h
        rw [if_neg (by simp)] at h
        simp only [Except.ok.injEq] at h
        subst h
        refine ⟨rfl, rfl, rfl, rfl, rfl, rfl, Or.inr ⟨?_, rfl⟩⟩
        unfold matchesOrigin
        rw [hsesome, hoesome]
        have hne : ¬(se = oe) := by simpa [beq_iff_eq] using heq
        simp [beq_iff_eq, hne]

/-- Identity fields being equal, two origin dicts agree on which stops match
them. -/
theorem matchesOrigin_congr (o o' s : StDict)
    (he : o'.external_id = o.external_id) (hp : o'.pooluic = o.pooluic) :
    matchesOrigin o' s = matchesOrigin o s := by
  unfold matchesOrigin
  rw [he, hp]

/-- Replaying the back-fill over a stop-entry sequence: identity and time
fields of the origin are preserved, and the final location is the last
matching main-stop entry's location — or everything is untouched when no
entry matches. -/
theorem backfill_fold_spec :
    ∀ (es : List (Bool × Int × StDict)) (o o' : StDict),
    foldlE backfillFoldStep o es = Except.ok o' →
    o'.external_id = o.external_id ∧ o'.pooluic = o.pooluic ∧ o'.name = o.name ∧
    o'.time = o.time ∧ o'.delay = o.delay ∧ o'.platform = o.platform ∧
    (match lastMatchLoc o es with
     | none => o' = o
     | some l => o'.location = l)
  | [], o, o', h => by
    simp only [foldlE, Except.ok.injEq] at h
    subst h
    exact ⟨rfl, rfl, rfl, rfl, rfl, rfl, by simp [lastMatchLoc]⟩
  | e :: es, o, o', h => by
    simp only [foldlE] at h
    cases hstep : backfillFoldStep o e with
    | error er => rw [hstep] at h; simp at h
    | ok o1 =>
      rw [hstep] at h
      by_cases he1 : e.1 = true
      · have hbf : backfillStep o e.2.2 = Except.ok o1 := by
          rw [← hstep]
          simp [backfillFoldStep, he1]
        obtain ⟨f1, f2, f3, f4, f5, f6, hdisj⟩ := backfillStep_cases o e.2.2 o1 hbf
        obtain ⟨g1, g2, g3, g4, g5, g6, hmatch⟩ := backfill_fold_spec es o1 o' h
        have hfiltereq : es.filter (fun ee => ee.1 && matchesOrigin o1 ee.2.2) =
            es.filter (fun ee => ee.1 && matchesOrigin o ee.2.2) :=
          List.filter_congr (fun x _ => by rw [matchesOrigin_congr o o1 x.2.2 f1 f2])
        have hlml : lastMatchLoc o1 es = lastMatchLoc o es := by
          unfold lastMatchLoc
          rw [hfiltereq]
        rw [hlml] at hmatch
        refine ⟨g1.trans f1, g2.trans f2, g3.trans f3, g4.trans f4, g5.trans f5,
          g6.trans f6, ?_⟩
        rcases hdisj with ⟨hmo, l, hsl, ho1⟩ | ⟨hmo, ho1⟩
        · have hfe : (e.1 && matchesOrigin o e.2.2) = true := by simp [he1, hmo]
          have hfc : (e :: es).filter (fun ee => ee.1 && matchesOrigin o ee.2.2) =
              e :: es.filter (fun ee => ee.1 && matchesOrigin o ee.2.2) := by
            simp [List.filter_cons, hfe]
          cases hlast : lastMatchLoc o es with
          | some l' =>
            rw [hlast] at hmatch
            have hgoal : lastMatchLoc o (e :: es) = some l' := by
              unfold lastMatchLoc at hlast ⊢
              rw [hfc]
              cases hgl : (es.filter (fun ee => ee.1 && matchesOrigin o ee.2.2)).getLast? with
              | none => rw [hgl] at hlast; simp at hlast
              | some c =>
                rw [hgl] at hlast
                rw [getLast?_cons_eq, hgl]
                simpa using hlast
            rw [hgoal]
            exact hmatch
          | none =>
            rw [hlast] at hmatch
            have hfes : es.filter (fun ee => ee.1 && matchesOrigin o ee.2.2) = [] := by
              unfold lastMatchLoc at hlast
              cases hgl : (es.filter (fun ee => ee.1 && matchesOrigin o ee.2.2)).getLast? with
              | none => exact List.getLast?_eq_none_iff.1 hgl
              | some c => rw [hgl] at hlast; simp at hlast
            have hgoal : lastMatchLoc o (e :: es) = some (e.2.2.location) := by
              unfold lastMatchLoc
              rw [hfc, hfes]
              rfl
            rw [hgoal, hmatch, ho1, hsl]
        · have hfe : (e.1 && matchesOrigin o e.2.2) = false := by simp [hmo]
          have hfc : (e :: es).filter (fun ee => ee.1 && matchesOrigin o ee.2.2) =
              es.filter (fun ee => ee.1 && matchesOrigin o ee.2.2) := by
            simp [List.filter_cons, hfe]
          have hgoal : lastMatchLoc o (e :: es) = lastMatchLoc o es := by
            unfold lastMatchLoc
            rw [hfc]
          rw [hgoal]
          cases hlast : lastMatchLoc o es with
          | none =>
            rw [hlast] at hmatch
            rw [hmatch, ho1]
          | some l' =>
            rw [hlast] at hmatch
            exact hmatch
      · have ho1 : o1 = o := by
          have hid : backfillFoldStep o e = Except.ok o := by
            simp [backfillFoldStep, he1]
          rw [hid] at hstep
          injection hstep with heq
          exact heq.symm
        subst ho1
        obtain ⟨g1, g2, g3, g4, g5, g6, hmatch⟩ := backfill_fold_spec es o1 o' h
        have hfe : (e.1 && matchesOrigin o1 e.2.2) = false := by
          simp [Bool.not_eq_true] at he1
          simp [he1]
        have hgoal : lastMatchLoc o1 (e :: es) = lastMatchLoc o1 es := by
          unfold lastMatchLoc
          simp [List.filter_cons, hfe]
        rw [hgoal]
        exact ⟨g1, g2, g3, g4, g5, g6, hmatch⟩

/-- The station-record parser only ever writes the identity and name keys. -/
theorem handle_station_fold_fields :
    ∀ (children : List XmlNode) (s info : StDict),
    foldlE stationStep s children = Except.ok info →
    info.location = s.location ∧ info.time = s.time ∧ info.delay = s.delay ∧
      info.platform = s.platform
  | [], s, info, h => by
    simp only [foldlE, Except.ok.injEq] at h
    subst h
    exact ⟨rfl, rfl, rfl, rfl⟩
  | element :: rest, s, info, h => by
    simp only [foldlE] at h
    cases hstep : stationStep s element with
    | error e => rw [hstep] at h; simp at h
    | ok s1 =>
      rw [hstep] at h
      unfold stationStep at hstep
      by_cases hE : (element.tag == "ExternalId") = true
      · rw [if_pos hE] at hstep
        cases he : pyInt element.text with
        | error er => rw [he] at hstep; simp at hstep
        | ok e =>
          rw [he] at hstep
          simp only [ok_bind] at hstep
          cases hp : pyInt (xGet element "pooluic") with
          | error er => rw [hp] at hstep; simp at hstep
          | ok p =>
            rw [hp] at hstep
            simp only [ok_bind, pure_eq_ok, Except.ok.injEq] at hstep
            obtain ⟨c1, c2, c3, c4⟩ := handle_station_fold_fields rest s1 info h
            rw [← hstep] at c1 c2 c3 c4
            exact ⟨c1, c2, c3, c4⟩
      · rw [if_neg hE] at hstep
        by_cases hH : (element.tag == "HafasName") = true
        · rw [if_pos hH] at hstep
          cases ht : xFind element "Text" with
          | none => rw [ht] at hstep; simp at hstep
          | some text_elem =>
            rw [ht] at hstep
            simp only [Except.ok.injEq] at hstep
            obtain ⟨c1, c2, c3, c4⟩ := handle_station_fold_fields rest s1 info h
            rw [← hstep] at c1 c2 c3 c4
            exact ⟨c1, c2, c3, c4⟩
        · rw [if_neg hH] at hstep
          simp only [Except.ok.injEq] at hstep
          obtain ⟨c1, c2, c3, c4⟩ := handle_station_fold_fields rest s1 info h
          rw [← hstep] at c1 c2 c3 c4
          exact ⟨c1, c2, c3, c4⟩

/-- `__handle_station` never produces a location/time/delay/platform key. -/
theorem handle_station_fields (children : List XmlNode) (info : StDict)
    (h : handle_station children = Except.ok info) :
    info.location = none ∧ info.time = none ∧ info.delay = none ∧
      info.platform = none :=
  handle_station_fold_fields children {} info h

/-- The `MainStop` inner loop in terms of its stop-entry sequence: the
resulting stop mapping is the insert replay, and the origin evolves by the
back-fill replay. -/
theorem mainstop_fold_spec (sd st : Option String) :
    ∀ (nodes : List XmlNode) (o : StDict) (c : ConnDict) (o' : StDict) (c' : ConnDict),
    foldlE (mainStopStep sd st) (o, c) nodes = Except.ok (o', c') →
    ∃ es, mapE (fun n => (handle_basic_stop n sd st).map (fun r => (true, r.1, r.2))) nodes
        = Except.ok es ∧
      c'.stops = entriesInsert c.stops es ∧
      foldlE backfillFoldStep o es = Except.ok o'
  | [], o, c, o', c', h => by
    simp only [foldlE, Except.ok.injEq, Prod.mk.injEq] at h
    obtain ⟨ho, hc⟩ := h
    subst ho
    subst hc
    exact ⟨[], rfl, rfl, rfl⟩
  | n :: rest, o, c, o', c', h => by
    simp only [foldlE] at h
    cases hstep : mainStopStep sd st (o, c) n with
    | error e => rw [hstep] at h; simp at h
    | ok p =>
      rw [hstep] at h
      unfold mainStopStep at hstep
      cases hb : handle_basic_stop n sd st with
      | error e => rw [hb] at hstep; simp at hstep
      | ok r =>
        rw [hb] at hstep
        simp only [ok_bind] at hstep
        cases ht : getKey r.2.time "time" with
        | error e => rw [ht] at hstep; simp at hstep
        | ok t =>
          rw [ht] at hstep
          simp only [ok_bind] at hstep
          cases hd : getKey r.2.delay "delay" with
          | error e => rw [hd] at hstep; simp at hstep
          | ok d =>
            rw [hd] at hstep
            simp only [ok_bind] at hstep
            cases hbf : backfillStep o r.2 with
            | error e => rw [hbf] at hstep; simp at hstep
            | ok o1 =>
              rw [hbf] at hstep
              simp only [ok_bind, pure_eq_ok, Except.ok.injEq] at hstep
              rw [← hstep] at h
              obtain ⟨es, hmap, hstops, hback⟩ := mainstop_fold_spec sd st rest o1 _ o' c' h
              refine ⟨(true, r.1, r.2) :: es, ?_, ?_, ?_⟩
              · simp only [mapE, hb, exmap_ok, hmap]
              · rw [hstops]
                rfl
              · have hbfs : backfillFoldStep o (true, r.1, r.2) = Except.ok o1 := by
                  simpa [backfillFoldStep] using hbf
                simp only [foldlE, hbfs]
                exact hback

/-- The `PassList` inner loop in terms of its stop-entry sequence. -/
theorem passlist_fold_spec (sd st : Option String) :
    ∀ (nodes : List XmlNode) (stops stops' : List (Int × StDict)),
    foldlE (passListStep sd st) stops nodes = Except.ok stops' →
    ∃ es, mapE (fun n => (handle_basic_stop n sd st).map (fun r => (false, r.1, r.2))) nodes
        = Except.ok es ∧
      stops' = entriesInsert stops es ∧
      (∀ e ∈ es, e.1 = false)
  | [], stops, stops', h => by
    simp only [foldlE, Except.ok.injEq] at h
    subst h
    exact ⟨[], rfl, rfl, by simp⟩
  | n :: rest, stops, stops', h => by
    simp only [foldlE] at h
    cases hstep : passListStep sd st stops n with
    | error e => rw [hstep] at h; simp at h
    | ok mid =>
      rw [hstep] at h
      unfold passListStep at hstep
      cases hb : handle_basic_stop n sd st with
      | error e => rw [hb] at hstep; simp at hstep
      | ok r =>
        rw [hb] at hstep
        simp only [ok_bind, pure_eq_ok, Except.ok.injEq] at hstep
        rw [← hstep] at h
        obtain ⟨es, hmap, hstops, hfalse⟩ := passlist_fold_spec sd st rest _ stops' h
        refine ⟨(false, r.1, r.2) :: es, ?_, ?_, ?_⟩
        · simp only [mapE, hb, exmap_ok, hmap]
        · rw [hstops]
          rfl
        · intro e he
          rcases List.mem_cons.1 he with h1 | h1
          · rw [h1]
          · exact hfalse e h1

/-- One journey's children fold in terms of its stop-entry sequence. -/
theorem journey_fold_spec (sd st : Option String) :
    ∀ (children : List XmlNode) (o : StDict) (c : ConnDict) (o' : StDict) (c' : ConnDict),
    foldlE (journeyStep sd st) (o, c) children = Except.ok (o', c') →
    ∃ es, journeyStopEntries sd st children = Except.ok es ∧
      c'.stops = entriesInsert c.stops es ∧
      foldlE backfillFoldStep o es = Except.ok o'
  | [], o, c, o', c', h => by
    simp only [foldlE, Except.ok.injEq, Prod.mk.injEq] at h
    obtain ⟨ho, hc⟩ := h
    subst ho
    subst hc
    exact ⟨[], rfl, rfl, rfl⟩
  | elem :: rest, o, c, o', c', h => by
    simp only [foldlE] at h
    cases hstep : journeyStep sd st (o, c) elem with
    | error e => rw [hstep] at h; simp at h
    | ok p =>
      rw [hstep] at h
      obtain ⟨o1, c1⟩ := p
      unfold journeyStep at hstep
      by_cases hJ : (elem.tag == "JourneyAttributeList") = true
      · rw [if_pos hJ] at hstep
        have htag : elem.tag = "JourneyAttributeList" := by simpa [beq_iff_eq] using hJ
        have hM : (elem.tag == "MainStop") = false := by rw [htag]; decide
        have hP : (elem.tag == "PassList") = false := by rw [htag]; decide
        cases hA : foldlE journeyAttrStep c.attrs elem.children with
        | error e => rw [hA] at hstep; simp at hstep
        | ok attrs =>
          rw [hA] at hstep
          simp only [ok_bind, pure_eq_ok, Except.ok.injEq, Prod.mk.injEq] at hstep
          obtain ⟨ho1, hc1⟩ := hstep
          obtain ⟨es, hents, hstops, hback⟩ := journey_fold_spec sd st rest o1 c1 o' c' h
          refine ⟨es, ?_, ?_, ?_⟩
          · simp only [journeyStopEntries, hM, hP, Bool.false_eq_true, if_false]
            exact hents
          · rw [hstops, ← hc1]
          · rw [ho1]
            exact hback
      · rw [if_neg hJ] at hstep
        by_cases hM : (elem.tag == "MainStop") = true
        · rw [if_pos hM] at hstep
          have htag : elem.tag = "MainStop" := by simpa [beq_iff_eq] using hM
          have hP : (elem.tag == "PassList") = false := by rw [htag]; decide
          obtain ⟨es1, hmap, hstops1, hback1⟩ :=
            mainstop_fold_spec sd st elem.children o c o1 c1 hstep
          obtain ⟨es2, hents, hstops2, hback2⟩ := journey_fold_spec sd st rest o1 c1 o' c' h
          refine ⟨es1 ++ es2, ?_, ?_, ?_⟩
          · simp only [journeyStopEntries, hM, if_true, hmap, hents, exmap_ok]
          · rw [hstops2, hstops1, entriesInsert_append]
          · rw [foldlE_append, hback1, ok_bind]
            exact hback2
        · rw [if_neg hM] at hstep
          simp only [Bool.not_eq_true] at hM
          by_cases hPr : (elem.tag == "Product") = true
          · rw [if_pos hPr] at hstep
            have htag : elem.tag = "Product" := by simpa [beq_iff_eq] using hPr
            have hP : (elem.tag == "PassList") = false := by rw [htag]; decide
            simp only [Except.ok.injEq, Prod.mk.injEq] at hstep
            obtain ⟨ho1, hc1⟩ := hstep
            obtain ⟨es, hents, hstops, hback⟩ := journey_fold_spec sd st rest o1 c1 o' c' h
            refine ⟨es, ?_, ?_, ?_⟩
            · simp only [journeyStopEntries, hM, hP, Bool.false_eq_true, if_false]
              exact hents
            · rw [hstops, ← hc1]
            · rw [ho1]
              exact hback
          · rw [if_neg hPr] at hstep
            by_cases hP : (elem.tag == "PassList") = true
            · rw [if_pos hP] at hstep
              cases hS : foldlE (passListStep sd st) c.stops elem.children with
              | error e => rw [hS] at hstep; simp at hstep
              | ok stops1 =>
                rw [hS] at hstep
                simp only [ok_bind, pure_eq_ok, Except.ok.injEq, Prod.mk.injEq] at hstep
                obtain ⟨ho1, hc1⟩ := hstep
                obtain ⟨es1, hmap, hstops1, hfalse⟩ :=
                  passlist_fold_spec sd st elem.children c.stops stops1 hS
                obtain ⟨es2, hents, hstops2, hback2⟩ :=
                  journey_fold_spec sd st rest o1 c1 o' c' h
                refine ⟨es1 ++ es2, ?_, ?_, ?_⟩
                · simp only [journeyStopEntries, hM, hP, Bool.false_eq_true, if_false,
                    if_true, hmap, hents, exmap_ok]
                · rw [hstops2, ← hc1]
                  show entriesInsert stops1 es2 = entriesInsert c.stops (es1 ++ es2)
                  rw [hstops1, entriesInsert_append]
                · rw [foldlE_append, backfill_skip o es1 hfalse, ok_bind, ho1]
                  exact hback2
            · rw [if_neg hP] at hstep
              simp only [Bool.not_eq_true] at hP
              by_cases hI : (elem.tag == "InfoTextList") = true
              · rw [if_pos hI] at hstep
                simp only [Except.ok.injEq, Prod.mk.injEq] at hstep
                obtain ⟨ho1, hc1⟩ := hstep
                obtain ⟨es, hents, hstops, hback⟩ :=
                  journey_fold_spec sd st rest o1 c1 o' c' h
                refine ⟨es, ?_, ?_, ?_⟩
                · simp only [journeyStopEntries, hM, hP, Bool.false_eq_true, if_false]
                  exact hents
                · rw [hstops, ← hc1]
                · rw [ho1]
                  exact hback
              · rw [if_neg hI] at hstep
                simp only [Except.ok.injEq, Prod.mk.injEq] at hstep
                obtain ⟨ho1, hc1⟩ := hstep
                obtain ⟨es, hents, hstops, hback⟩ :=
                  journey_fold_spec sd st rest o1 c1 o' c' h
                refine ⟨es, ?_, ?_, ?_⟩
                · simp only [journeyStopEntries, hM, hP, Bool.false_eq_true, if_false]
                  exact hents
                · rw [hstops, ← hc1]
                · rw [ho1]
                  exact hback

/-- The journey-list fold of `get_stboard` in terms of the full stop-entry
sequence: connections accumulate in order, each journey's stop mapping is the
insert replay of its own entries, and the origin evolves by the back-fill
replay over all entries. -/
theorem board_fold_spec (sd st : Option String) :
    ∀ (journeys : List XmlNode) (o : StDict) (acc : List ConnDict) (o' : StDict)
      (conns : List ConnDict),
    foldlE (boardStep sd st) (o, acc) journeys = Except.ok (o', conns) →
    ∃ es newConns, boardEntries sd st journeys = Except.ok es ∧
      conns = acc ++ newConns ∧
      foldlE backfillFoldStep o es = Except.ok o' ∧
      List.Forall₂ (fun (j : XmlNode) (conn : ConnDict) =>
        ∃ jes, journeyStopEntries sd st j.children = Except.ok jes ∧
          conn.stops = entriesInsert [] jes) journeys newConns
  | [], o, acc, o', conns, h => by
    simp only [foldlE, Except.ok.injEq, Prod.mk.injEq] at h
    obtain ⟨ho, hc⟩ := h
    subst ho
    subst hc
    exact ⟨[], [], rfl, by simp, rfl, List.Forall₂.nil⟩
  | j :: rest, o, acc, o', conns, h => by
    simp only [foldlE] at h
    cases hstep : boardStep sd st (o, acc) j with
    | error e => rw [hstep] at h; simp at h
    | ok p =>
      rw [hstep] at h
      obtain ⟨o1, acc1⟩ := p
      unfold boardStep at hstep
      simp only [] at hstep
      cases hjf : foldlE (journeyStep sd st) (o, { train_id := xGet j "trainId" })
          j.children with
      | error e => rw [hjf] at hstep; simp at hstep
      | ok q =>
        rw [hjf] at hstep
        obtain ⟨oq, conn⟩ := q
        simp only [ok_bind, pure_eq_ok, Except.ok.injEq, Prod.mk.injEq] at hstep
        obtain ⟨ho1, hacc1⟩ := hstep
        obtain ⟨jes, hjents, hjstops, hjback⟩ :=
          journey_fold_spec sd st j.children o _ oq conn hjf
        obtain ⟨es2, newConns2, hbents, hconns, hback2, hfa⟩ :=
          board_fold_spec sd st rest o1 acc1 o' conns h
        refine ⟨jes ++ es2, conn :: newConns2, ?_, ?_, ?_, ?_⟩
        · simp only [boardEntries, hjents, hbents, exmap_ok]
        · rw [hconns, ← hacc1]
          simp
        · rw [foldlE_append, hjback, ok_bind]
          rw [← ho1] at hback2
          exact hback2
        · exact List.Forall₂.cons ⟨jes, hjents, hjstops⟩ hfa

/-- Membership on the right of a `Forall₂` yields a related left element. -/
theorem forall2_exists_left {α β : Type} {R : α → β → Prop} :
    ∀ {l1 : List α} {l2 : List β}, List.Forall₂ R l1 l2 → ∀ b ∈ l2, ∃ a, R a b
  | _, _, List.Forall₂.nil, b, hb => absurd hb (List.not_mem_nil b)
  | _, _, List.Forall₂.cons hr hrest, b, hb => by
    rcases List.mem_cons.1 hb with h1 | h1
    · exact ⟨_, h1 ▸ hr⟩
    · exact forall2_exists_left hrest b h1

/-- Destructuring of a successful `get_stboard` run: the origin station is
the station-parser output, the connections pair up with the journeys, and
the returned origin is the back-fill replay over all stop entries. -/
theorem get_stboard_spec (root : XmlNode) (ost : StDict) (conns : List ConnDict)
    (h : get_stboard root = Except.ok (ost, conns)) :
    ∃ origin0 es,
      parsedOriginStation root = Except.ok origin0 ∧
      boardEntries (boardStartDate root) (boardStartTime root) (boardJourneys root) =
        Except.ok es ∧
      foldlE backfillFoldStep origin0 es = Except.ok ost ∧
      List.Forall₂ (fun (j : XmlNode) (conn : ConnDict) =>
        ∃ jes, journeyStopEntries (boardStartDate root) (boardStartTime root) j.children =
            Except.ok jes ∧
          conn.stops = entriesInsert [] jes) (boardJourneys root) conns := by
  unfold get_stboard at h
  cases hT : xFindP root ["SBRes", "SBReq", "StartT"] with
  | none => rw [hT] at h; simp at h
  | some stT =>
    rw [hT] at h
    simp only [pure_eq_ok, ok_bind] at h
    cases hS : xFindP root ["SBRes", "SBReq", "Start", "Station"] with
    | none => rw [hS] at h; simp at h
    | some stn =>
      rw [hS] at h
      simp only [pure_eq_ok, ok_bind] at h
      cases ho : handle_station stn.children with
      | error e => rw [ho] at h; cases e <;> simp at h
      | ok origin0 =>
        rw [ho] at h
        simp only [pure_eq_ok, ok_bind] at h
        cases hfold : foldlE (boardStep (xGet stT "date") (xGet stT "time")) (origin0, [])
            (xFindAll root ["SBRes", "JourneyList", "Journey"]) with
        | error e => rw [hfold] at h; simp at h
        | ok pr =>
          rw [hfold] at h
          obtain ⟨o', cs⟩ := pr
          simp only [ok_bind, pure_eq_ok, Except.ok.injEq, Prod.mk.injEq] at h
          obtain ⟨hostq, hcsq⟩ := h
          obtain ⟨es, newConns, hbents, hconns, hback, hfa⟩ :=
            board_fold_spec (xGet stT "date") (xGet stT "time") _ origin0 [] o' cs hfold
          have hsd : boardStartDate root = xGet stT "date" := by
            simp [boardStartDate, hT]
          have hst : boardStartTime root = xGet stT "time" := by
            simp [boardStartTime, hT]
          have hbj : boardJourneys root = xFindAll root ["SBRes", "JourneyList", "Journey"] :=
            rfl
          refine ⟨origin0, es, ?_, ?_, ?_, ?_⟩
          · simp [parsedOriginStation, hS, ho]
          · rw [hsd, hst, hbj]
            exact hbents
          · rw [hostq] at hback
            exact hback
          · rw [hsd, hst, hbj, ← hcsq, hconns]
            simpa using hfa

/-! ## Claim C5 -/

/-- Claim C5, counterexample: in `c5doc` the journey has one main-stop entry
and one pass-list entry, both with index 0; the stop mapping has size 1, not
1 + 1 — the duplicate index overwrites. -/
theorem stop_index_size_counterexample :
    (get_stboard c5doc).map (fun p => p.2.map (fun c => c.stops.length)) =
      Except.ok [1] ∧
    (boardJourneys c5doc).map mainPassEntryCount = [2] :=
  ⟨rfl, rfl⟩

/-- Claim C5 (amended): within every returned connection the stop indices are
unique keys of the stop mapping; and whenever a journey's main-stop and
pass-list entries carry pairwise distinct indices, the mapping's size equals
the number of main-stop entries plus pass-list entries (duplicates overwrite
and shrink the mapping). -/
theorem stop_mapping_spec (root : XmlNode) (ost : StDict) (conns : List ConnDict)
    (h : get_stboard root = Except.ok (ost, conns)) :
    (∀ conn ∈ conns, (dictKeys conn.stops).Nodup) ∧
    List.Forall₂ (fun (j : XmlNode) (conn : ConnDict) =>
      ∀ es, journeyStopEntries (boardStartDate root) (boardStartTime root) j.children =
          Except.ok es →
        (es.map (fun e => e.2.1)).Nodup →
        conn.stops.length = mainPassEntryCount j) (boardJourneys root) conns := by
  obtain ⟨origin0, es, hpo, hbe, hback, hfa⟩ := get_stboard_spec root ost conns h
  constructor
  · intro conn hconn
    obtain ⟨j, jes, hjes, hstops⟩ := forall2_exists_left hfa conn hconn
    rw [hstops]
    exact entriesInsert_keys_nodup jes [] (by simp [dictKeys])
  · refine List.Forall₂.imp ?_ hfa
    rintro j conn ⟨jes, hjes, hstops⟩ es hes hnodup
    rw [hjes] at hes
    injection hes with hjes'
    subst hjes'
    rw [hstops, entriesInsert_fresh jes [] (by simpa [dictKeys] using hnodup)]
    simp only [List.nil_append, List.length_map]
    exact journeyStopEntries_length _ _ j.children jes hjes

/-- Witness for `stop_mapping_spec` at the two-distinct-indices board. -/
theorem stop_mapping_spec_witness :
    (∀ conn ∈ [c5wconn], (dictKeys conn.stops).Nodup) ∧
    List.Forall₂ (fun (j : XmlNode) (conn : ConnDict) =>
      ∀ es, journeyStopEntries (boardStartDate c5wdoc) (boardStartTime c5wdoc) j.children =
          Except.ok es →
        (es.map (fun e => e.2.1)).Nodup →
        conn.stops.length = mainPassEntryCount j) (boardJourneys c5wdoc) [c5wconn] :=
  stop_mapping_spec c5wdoc c5wost [c5wconn] (by rfl)

/-! ## Claim C9 -/

/-- Claim C9, counterexample: in `c9doc` both journeys' main stops match the
origin station's identity (3004734/80) but carry different locations
(`x = 1000000` and `x = 2000000`); the returned origin's location is the
second one, so it is not "that main stop's location" for the first matching
journey. -/
theorem origin_backfill_counterexample :
    (get_stboard c9doc).map (fun p => p.1.location.map (fun l => l.x)) =
      Except.ok (some 2000000) ∧
    (handle_basic_stop ⟨"BasicStop", [("index", "0")], none, [exLocAt "1000000", exDep]⟩
        (some "20160101") (some "23:50")).map
      (fun r => (r.1, r.2.external_id, r.2.pooluic, r.2.location.map (fun l => l.x))) =
      Except.ok (0, some 3004734, some 80, some 1000000) ∧
    (parsedOriginStation c9doc).map (fun o => (o.external_id, o.pooluic)) =
      Except.ok (some 3004734, some 80) ∧
    (2000000 : Int) ≠ 1000000 :=
  ⟨rfl, rfl, rfl, by decide⟩

/-- Claim C9 (amended): the returned origin station record has the identity
and name the Station Record Parser produced; when no journey's main stop
matches the origin identity the record is returned exactly as parsed (in
particular with no location field), and when main stops match, its location
is the location of the *last* matching main-stop entry in document order. -/
theorem origin_backfill_spec (root : XmlNode) (ost : StDict) (conns : List ConnDict)
    (h : get_stboard root = Except.ok (ost, conns)) :
    ∃ origin0 es,
      parsedOriginStation root = Except.ok origin0 ∧
      boardEntries (boardStartDate root) (boardStartTime root) (boardJourneys root) =
        Except.ok es ∧
      origin0.location = none ∧
      ost.external_id = origin0.external_id ∧ ost.pooluic = origin0.pooluic ∧
      ost.name = origin0.name ∧
      (match lastMatchLoc origin0 es with
       | none => ost = origin0
       | some l => ost.location = l) := by
  obtain ⟨origin0, es, hpo, hbe, hback, hfa⟩ := get_stboard_spec root ost conns h
  obtain ⟨g1, g2, g3, _, _, _, hmatch⟩ := backfill_fold_spec es origin0 ost hback
  have hloc : origin0.location = none := by
    unfold parsedOriginStation at hpo
    cases hS : xFindP root ["SBRes", "SBReq", "Start", "Station"] with
    | none => rw [hS] at hpo; simp at hpo
    | some stn =>
      rw [hS] at hpo
      have hpo2 : (match handle_station stn.children with
          | Except.error PyErr.typeError => Except.error PyErr.stationNotFound
          | Except.error e' => Except.error e'
          | Except.ok i => Except.ok i) = Except.ok origin0 := hpo
      cases ho : handle_station stn.children with
      | error e => rw [ho] at hpo2; cases e <;> simp at hpo2
      | ok i =>
        rw [ho] at hpo2
        simp only [Except.ok.injEq] at hpo2
        subst hpo2
        exact (handle_station_fields stn.children i ho).1
  exact ⟨origin0, es, hpo, hbe, hloc, g1, g2, g3, hmatch⟩

/-- Witness for `origin_backfill_spec` at `c1doc`, whose single journey's
main stop matches the origin and back-fills its location. -/
theorem origin_backfill_spec_witness :
    ∃ origin0 es,
      parsedOriginStation c1doc = Except.ok origin0 ∧
      boardEntries (boardStartDate c1doc) (boardStartTime c1doc) (boardJourneys c1doc) =
        Except.ok es ∧
      origin0.location = none ∧
      exOriginFilled.external_id = origin0.external_id ∧
      exOriginFilled.pooluic = origin0.pooluic ∧
      exOriginFilled.name = origin0.name ∧
      (match lastMatchLoc origin0 es with
       | none => exOriginFilled = origin0
       | some l => exOriginFilled.location = l) :=
  origin_backfill_spec c1doc exOriginFilled [exConn1] (by rfl)

end RMV
